import Mathlib

/-!
Verification development for the lead-distribution and reconciliation engine
(`distributionV2.py` and `performance_analyzer.py`).

The Python code is shallowly embedded: sheet cells are `String`s, usage
counters are functions `String → Nat`, rows and sheets are `List`s.  Each
definition mirrors one function (or one loop body) of the source; the line
numbers of the source are given next to every definition.
-/

/-- A roster entry from `settings.yaml`: a stakeholder name and a daily limit
(validated in `load_settings` to be a non-negative integer, hence `Nat`). -/
structure Stakeholder where
  name : String
  limit : Nat
deriving DecidableEq, Repr

/-- Scan loop of `assign_stakeholder_with_limits` (distributionV2.py lines
162-172): `fuel` counts the remaining iterations of `for i in range(num)`,
`i` is the current loop variable.  The usage counters `used` model the
`stakeholder_assignments` dict. -/
def assignAux (roster : List Stakeholder) (used : String → Nat) (cursor : Nat) :
    Nat → Nat → Option String × Nat × (String → Nat)
  | _, 0 => (none, cursor, used)
  | i, fuel + 1 =>
    match roster[(cursor + i) % roster.length]? with
    | none => (none, cursor, used)
    | some st =>
      if used st.name < st.limit then
        (some st.name, ((cursor + i) % roster.length + 1) % roster.length,
          fun m => if m = st.name then used m + 1 else used m)
      else
        assignAux roster used cursor (i + 1) fuel

/-- `assign_stakeholder_with_limits(current_index, stakeholder_list,
stakeholder_assignments)` (distributionV2.py lines 160-172).  Returns the
assigned name (or `none`), the next cursor, and the updated counters. -/
def assign_stakeholder_with_limits (current_index : Nat) (stakeholder_list : List Stakeholder)
    (stakeholder_assignments : String → Nat) : Option String × Nat × (String → Nat) :=
  assignAux stakeholder_list stakeholder_assignments current_index 0 stakeholder_list.length

/-- One source pass at the assignment level: the per-lead loop of
`distribute_abandoned_orders` (lines 349-351) and of the Orders section of
`distribute_and_report` (lines 536-540) calls the allocator once per eligible
lead, threading the cursor and the counters.  `n` is the number of eligible
leads; the list collects each lead's allocator result in order. -/
def processLeads (roster : List Stakeholder) : Nat → Nat → (String → Nat) →
    List (Option String) × Nat × (String → Nat)
  | 0, cursor, used => ([], cursor, used)
  | n + 1, cursor, used =>
    let r := assign_stakeholder_with_limits cursor roster used
    let rest := processLeads roster n r.2.1 r.2.2
    (r.1 :: rest.1, rest.2.1, rest.2.2)

/-- A full `distribute_and_report` run over both sources: the Orders pass
starts at `current_index = 0` (line 534) with zero counters (line 466); the
Abandoned pass receives the same counters object (line 642) but its own
`current_index = 0` (line 347).  Result: the assignment lists of the two
passes. -/
def twoSourceRun (roster : List Stakeholder) (nOrders nAbandoned : Nat) :
    List (Option String) × List (Option String) :=
  let o := processLeads roster nOrders 0 (fun _ => 0)
  let a := processLeads roster nAbandoned 0 o.2.2
  (o.1, a.1)

/-- Kernel-computable model of python `str.strip()`: drop whitespace from
both ends of the string. -/
def pyStrip (s : String) : String :=
  ⟨((s.data.dropWhile Char.isWhitespace).reverse.dropWhile Char.isWhitespace).reverse⟩

/-- The three attempt-date cells of one lead row (columns `Date`/`Date 2`/
`Date 3` on Orders, `Date 1`/`Date 2`/`Date 3` on Abandoned).  Cell values
are the strings held by the data frame, which were stripped on load. -/
structure DateSlots where
  d1 : String
  d2 : String
  d3 : String
deriving DecidableEq, Repr

/-- Date logic of the Orders pass (distributionV2.py lines 559-577) for an
assigned lead with (stripped) status `call_status`.  Both `Date 2` and
`Date 3` exist in the data frame because lines 517-526 add them when missing.
Emptiness tests mirror `if not dateN_val` on the stripped values. -/
def ordersDateUpdate (call_status today : String) (d : DateSlots) : DateSlots :=
  let date1_val := pyStrip d.d1
  let date2_val := pyStrip d.d2
  let date3_val := pyStrip d.d3
  if call_status = "Call didn\x27t Pick" then
    if date1_val = "" then { d with d1 := today }
    else if date2_val = "" then { d with d2 := today }
    else if date3_val = "" then { d with d3 := today }
    else d
  else
    { d1 := today, d2 := "", d3 := "" }

/-- Date logic of the Abandoned pass (distributionV2.py lines 361-383) for an
assigned lead with (stripped) status `call_status`.  Note the source compares
against `"Follow Up"` (capital U) here although the row filter (line 339)
admits `"Follow up"`; and the all-slots-filled branch writes the stripped
originals back (lines 381-383). -/
def abandonedDateUpdate (call_status today : String) (d : DateSlots) : DateSlots :=
  let original_date1_val := pyStrip d.d1
  let original_date2_val := pyStrip d.d2
  let original_date3_val := pyStrip d.d3
  if call_status = "" then
    { d1 := today, d2 := "", d3 := "" }
  else if call_status = "Didn\x27t Pickup" ∨ call_status = "Follow Up" then
    if original_date1_val = "" then { d1 := today, d2 := "", d3 := "" }
    else if original_date2_val = "" then { d1 := d.d1, d2 := today, d3 := "" }
    else if original_date3_val = "" then { d1 := d.d1, d2 := d.d2, d3 := today }
    else { d1 := original_date1_val, d2 := original_date2_val, d3 := original_date3_val }
  else
    d

/-- `all_priority_statuses` (distributionV2.py line 529): the flattening of
`CALL_PRIORITIES` (lines 30-35) in priority order; an Orders row is eligible
for assignment exactly when its stripped `Call-status` is in this list. -/
def all_priority_statuses : List String :=
  ["NDR", "Confirmation Pending", "Fresh", "Call didn\x27t Pick", "Follow up",
   "Abandoned", "Number invalid/fake order"]

/-- `statuses_to_process` for the Abandoned sheet (distributionV2.py
line 339): eligible stripped `Call status` values. -/
def abandoned_statuses_to_process : List String :=
  ["", "Didn\x27t Pickup", "Follow up"]

/-- Modelled from the spec (section 4.2): the "retry" status set used by the
claims to split statuses into the retry regime and the fresh/terminal
regime.  The set itself appears only in the spec text, not as one constant
of the source. -/
def specRetryStatusSet : List String :=
  ["Call didn\x27t Pick", "Didn\x27t Pickup", "Follow up"]

/-- An element located by `getElem?` is a member of the list. -/
theorem mem_of_getElemQ {α : Type} {l : List α} {i : Nat} {a : α} (h : l[i]? = some a) :
    a ∈ l := by
  obtain ⟨hlt, rfl⟩ := List.getElem?_eq_some.mp h
  exact List.getElem_mem hlt

/-- If the scan returns `none`, the cursor and the counters are unchanged and
every candidate inspected during the scan was at its limit. -/
theorem assignAux_none_char (roster : List Stakeholder) (used : String → Nat) (cursor : Nat)
    (hn : 0 < roster.length) :
    ∀ fuel i c' u', assignAux roster used cursor i fuel = (none, c', u') →
      c' = cursor ∧ u' = used ∧
        ∀ j, j < fuel → ∀ st, roster[(cursor + (i + j)) % roster.length]? = some st →
          st.limit ≤ used st.name := by
  intro fuel
  induction fuel with
  | zero =>
    intro i c' u' h
    simp only [assignAux, Prod.mk.injEq] at h
    exact ⟨h.2.1.symm, h.2.2.symm, fun j hj => absurd hj (Nat.not_lt_zero j)⟩
  | succ fuel ih =>
    intro i c' u' h
    have hidx : (cursor + i) % roster.length < roster.length := Nat.mod_lt _ hn
    simp only [assignAux, List.getElem?_eq_getElem hidx] at h
    by_cases hcap : used (roster[(cursor + i) % roster.length]).name <
        (roster[(cursor + i) % roster.length]).limit
    · simp only [if_pos hcap, Prod.mk.injEq] at h
      exact absurd h.1 (by simp)
    · simp only [if_neg hcap] at h
      obtain ⟨hc, hu, hrest⟩ := ih (i + 1) c' u' h
      refine ⟨hc, hu, ?_⟩
      intro j hj st hst
      cases j with
      | zero =>
        have hst2 : st = roster[(cursor + i) % roster.length] := by
          rw [Nat.add_zero] at hst
          rw [List.getElem?_eq_getElem hidx] at hst
          exact (Option.some.injEq .. ▸ hst).symm
        subst hst2
        exact Nat.le_of_not_lt hcap
      | succ j' =>
        have hidx2 : cursor + (i + (j' + 1)) = cursor + (i + 1 + j') := by omega
        exact hrest j' (by omega) st (by rw [← hidx2]; exact hst)

/-- If the scan returns `some name`, the winner is the first candidate with
remaining capacity in cursor order: all earlier candidates were at their
limit, the winner's counter is incremented, and the next cursor is one past
the winner's index. -/
theorem assignAux_some_char (roster : List Stakeholder) (used : String → Nat) (cursor : Nat) :
    ∀ fuel i name c' u', assignAux roster used cursor i fuel = (some name, c', u') →
      ∃ k, k < fuel ∧
        (∀ j, j < k → ∀ st, roster[(cursor + (i + j)) % roster.length]? = some st →
          st.limit ≤ used st.name) ∧
        ∃ st, roster[(cursor + (i + k)) % roster.length]? = some st ∧ name = st.name ∧
          used st.name < st.limit ∧
          c' = ((cursor + (i + k)) % roster.length + 1) % roster.length ∧
          u' = fun m => if m = st.name then used m + 1 else used m := by
  intro fuel
  induction fuel with
  | zero =>
    intro i name c' u' h
    simp only [assignAux, Prod.mk.injEq] at h
    exact absurd h.1 (by simp)
  | succ fuel ih =>
    intro i name c' u' h
    simp only [assignAux] at h
    rcases hget : roster[(cursor + i) % roster.length]? with _ | st
    · rw [hget] at h
      simp only [Prod.mk.injEq] at h
      exact absurd h.1 (by simp)
    · rw [hget] at h
      by_cases hcap : used st.name < st.limit
      · simp only [if_pos hcap, Prod.mk.injEq] at h
        obtain ⟨h1, h2, h3⟩ := h
        refine ⟨0, Nat.succ_pos fuel, fun j hj => absurd hj (Nat.not_lt_zero j), st, ?_⟩
        refine ⟨by simpa using hget, by simpa using h1.symm, hcap, by simpa using h2.symm, h3.symm⟩
      · simp only [if_neg hcap] at h
        obtain ⟨k, hk, hbefore, st', hst', hname, hcap', hc', hu'⟩ := ih (i + 1) name c' u' h
        refine ⟨k + 1, by omega, ?_, st', ?_, hname, hcap', ?_, hu'⟩
        · intro j hj st₀ hst₀
          cases j with
          | zero =>
            have : st₀ = st := by
              have := hget ▸ hst₀
              simpa using this.symm
            subst this
            exact Nat.le_of_not_lt hcap
          | succ j' =>
            have hidx2 : cursor + (i + (j' + 1)) = cursor + (i + 1 + j') := by omega
            exact hbefore j' (by omega) st₀ (by rw [← hidx2]; exact hst₀)
        · have hidx2 : cursor + (i + (k + 1)) = cursor + (i + 1 + k) := by omega
          rw [hidx2]; exact hst'
        · have hidx2 : cursor + (i + (k + 1)) = cursor + (i + 1 + k) := by omega
          rw [hidx2]; exact hc'

/-- If every roster member is at its limit, the scan changes nothing and
returns `none`. -/
theorem assignAux_exhausted (roster : List Stakeholder) (used : String → Nat) (cursor : Nat)
    (h : ∀ s ∈ roster, s.limit ≤ used s.name) :
    ∀ fuel i, assignAux roster used cursor i fuel = (none, cursor, used) := by
  intro fuel
  induction fuel with
  | zero => intro i; simp [assignAux]
  | succ fuel ih =>
    intro i
    simp only [assignAux]
    rcases hget : roster[(cursor + i) % roster.length]? with _ | st
    · rfl
    · have hmem : st ∈ roster := mem_of_getElemQ hget
      have hnc : ¬ used st.name < st.limit := Nat.not_lt.mpr (h st hmem)
      simp only [if_neg hnc]
      exact ih (i + 1)

/-- The allocator either leaves the counters unchanged (returning `none`) or
increments exactly one roster member whose counter was strictly below its
limit (returning that member's name). -/
theorem assign_result_cases (roster : List Stakeholder) (used : String → Nat) (cursor : Nat) :
    ∀ fuel i,
      ((assignAux roster used cursor i fuel).1 = none ∧
        (assignAux roster used cursor i fuel).2.2 = used) ∨
      ∃ st, st ∈ roster ∧ used st.name < st.limit ∧
        (assignAux roster used cursor i fuel).1 = some st.name ∧
        (assignAux roster used cursor i fuel).2.2 =
          fun m => if m = st.name then used m + 1 else used m := by
  intro fuel
  induction fuel with
  | zero => intro i; left; simp [assignAux]
  | succ fuel ih =>
    intro i
    simp only [assignAux]
    rcases hget : roster[(cursor + i) % roster.length]? with _ | st
    · left; exact ⟨rfl, rfl⟩
    · by_cases hcap : used st.name < st.limit
      · right
        exact ⟨st, mem_of_getElemQ hget, hcap, by simp [hcap], by simp [hcap]⟩
      · simp only [if_neg hcap]
        exact ih (i + 1)

/-- One allocator call: the counter of each roster member `s` grows by one
exactly when `s` received the lead, and stays at or below `s.limit`
(requires the roster names to be distinct, as `load_settings` rosters are). -/
theorem assign_tracks (roster : List Stakeholder) (used : String → Nat) (cursor : Nat)
    (hnd : (roster.map Stakeholder.name).Nodup)
    (hinv : ∀ t ∈ roster, used t.name ≤ t.limit) (s : Stakeholder) (hs : s ∈ roster) :
    (assign_stakeholder_with_limits cursor roster used).2.2 s.name =
      used s.name +
        (if (assign_stakeholder_with_limits cursor roster used).1 = some s.name then 1 else 0) ∧
    (assign_stakeholder_with_limits cursor roster used).2.2 s.name ≤ s.limit := by
  unfold assign_stakeholder_with_limits
  rcases assign_result_cases roster used cursor roster.length 0 with ⟨h1, h2⟩ | ⟨st, hmem, hcap, h1, h2⟩
  · rw [h1, h2]
    simp [hinv s hs]
  · rw [h1, h2]
    by_cases hname : s.name = st.name
    · have hseq : s = st := List.inj_on_of_nodup_map hnd hs hmem hname
      subst hseq
      simp [Nat.succ_le_of_lt hcap]
    · simp only [if_neg hname]
      have hne : ¬ (some st.name = some s.name) := by
        intro hc
        exact hname (Option.some.injEq .. ▸ hc).symm
      simp [hne, hinv s hs]

/-- Across any sequence of allocator calls the counter of each roster member
equals its starting value plus the number of leads it received, and never
exceeds its limit. -/
theorem processLeads_count (roster : List Stakeholder)
    (hnd : (roster.map Stakeholder.name).Nodup) :
    ∀ n cursor used, (∀ t ∈ roster, used t.name ≤ t.limit) →
      ∀ s ∈ roster,
        used s.name + ((processLeads roster n cursor used).1.count (some s.name)) ≤ s.limit ∧
        (processLeads roster n cursor used).2.2 s.name =
          used s.name + ((processLeads roster n cursor used).1.count (some s.name)) := by
  intro n
  induction n with
  | zero =>
    intro cursor used hinv s hs
    simp only [processLeads, List.count_nil]
    exact ⟨by simpa using hinv s hs, by simp⟩
  | succ n ih =>
    intro cursor used hinv s hs
    have hinv' : ∀ t ∈ roster, (assign_stakeholder_with_limits cursor roster used).2.2 t.name ≤ t.limit :=
      fun t ht => (assign_tracks roster used cursor hnd hinv t ht).2
    obtain ⟨htrack, _⟩ := assign_tracks roster used cursor hnd hinv s hs
    obtain ⟨hle, heq⟩ := ih (assign_stakeholder_with_limits cursor roster used).2.1
      (assign_stakeholder_with_limits cursor roster used).2.2 hinv' s hs
    simp only [processLeads, List.count_cons]
    have hif : (if ((assign_stakeholder_with_limits cursor roster used).1 == some s.name) = true
        then 1 else 0) =
        (if (assign_stakeholder_with_limits cursor roster used).1 = some s.name then 1 else 0) := by
      simp [beq_iff_eq]
    rw [hif]
    rw [htrack] at hle heq
    constructor
    · omega
    · rw [heq]
      omega

/-- Round-robin index cover: every list position is reached by some scan
offset `j < n` starting at an arbitrary cursor. -/
theorem scan_covers (n cursor m : Nat) (hn : 0 < n) (hm : m < n) :
    ∃ j, j < n ∧ (cursor + j) % n = m := by
  have hcn : cursor % n < n := Nat.mod_lt _ hn
  rcases le_or_lt (cursor % n) m with h | h
  · refine ⟨m - cursor % n, by omega, ?_⟩
    rw [← Nat.mod_add_mod]
    have he : cursor % n + (m - cursor % n) = m := by omega
    rw [he, Nat.mod_eq_of_lt hm]
  · refine ⟨m + n - cursor % n, by omega, ?_⟩
    rw [← Nat.mod_add_mod]
    have he : cursor % n + (m + n - cursor % n) = m + n := by omega
    rw [he, Nat.add_mod_right, Nat.mod_eq_of_lt hm]

/-- Claim C1: in any `DistributionEngine` run (any sequence of allocator
calls starting from zero counters) no stakeholder receives more leads than
its daily limit, and `assign_stakeholder_with_limits` never drives a usage
counter above the limit, however many times it is called — provided the
roster names are distinct, as the data model requires. -/
theorem C1_capacity_invariant (roster : List Stakeholder)
    (hnd : (roster.map Stakeholder.name).Nodup) :
    (∀ n cursor, ∀ s ∈ roster,
      ((processLeads roster n cursor (fun _ => 0)).1.count (some s.name)) ≤ s.limit) ∧
    (∀ n cursor used, (∀ t ∈ roster, used t.name ≤ t.limit) →
      ∀ s ∈ roster, (processLeads roster n cursor used).2.2 s.name ≤ s.limit) := by
  constructor
  · intro n cursor s hs
    have h := (processLeads_count roster hnd n cursor (fun _ => 0) (by simp) s hs).1
    simpa using h
  · intro n cursor used hinv s hs
    obtain ⟨hle, heq⟩ := processLeads_count roster hnd n cursor used hinv s hs
    omega

/-- Witness for C1 at a concrete roster and run length. -/
theorem C1_capacity_invariant_witness :
    ((processLeads [⟨"A", 1⟩, ⟨"B", 2⟩] 5 0 (fun _ => 0)).1.count (some "A")) ≤ 1 :=
  (C1_capacity_invariant [⟨"A", 1⟩, ⟨"B", 2⟩] (by decide)).1 5 0 ⟨"A", 1⟩ (by decide)

/-- Claim C2: full functional characterisation of the allocator.  An empty
roster yields `none` immediately; a successful call returns the first
stakeholder with remaining capacity in cursor order, increments exactly that
counter and sets the next cursor to one past the found index; a `none`
result leaves cursor and counters unchanged and happens exactly when every
roster member is at its limit. -/
theorem C2_allocator_correct (roster : List Stakeholder) (cursor : Nat) (used : String → Nat) :
    (roster = [] → assign_stakeholder_with_limits cursor roster used = (none, cursor, used)) ∧
    (∀ name c' u', assign_stakeholder_with_limits cursor roster used = (some name, c', u') →
      ∃ k, k < roster.length ∧
        (∀ j, j < k → ∀ st, roster[(cursor + j) % roster.length]? = some st →
          st.limit ≤ used st.name) ∧
        ∃ st, roster[(cursor + k) % roster.length]? = some st ∧ name = st.name ∧
          used st.name < st.limit ∧
          c' = ((cursor + k) % roster.length + 1) % roster.length ∧
          u' = fun m => if m = st.name then used m + 1 else used m) ∧
    (∀ c' u', assign_stakeholder_with_limits cursor roster used = (none, c', u') →
      c' = cursor ∧ u' = used ∧ ∀ s ∈ roster, s.limit ≤ used s.name) ∧
    ((∀ s ∈ roster, s.limit ≤ used s.name) →
      assign_stakeholder_with_limits cursor roster used = (none, cursor, used)) := by
  refine ⟨?_, ?_, ?_, ?_⟩
  · intro h
    subst h
    rfl
  · intro name c' u' h
    obtain ⟨k, hk, hbefore, st, hst, hname, hcap, hc', hu'⟩ :=
      assignAux_some_char roster used cursor roster.length 0 name c' u' h
    refine ⟨k, hk, ?_, st, by simpa using hst, hname, hcap, by simpa using hc', hu'⟩
    intro j hj st₀ hst₀
    exact hbefore j hj st₀ (by simpa using hst₀)
  · intro c' u' h
    rcases Nat.eq_zero_or_pos roster.length with hn | hn
    · have hroster : roster = [] := List.length_eq_zero.mp hn
      subst hroster
      simp only [assign_stakeholder_with_limits, assignAux, Prod.mk.injEq] at h
      exact ⟨h.2.1.symm, h.2.2.symm, by simp⟩
    · obtain ⟨hc, hu, hall⟩ := assignAux_none_char roster used cursor hn roster.length 0 c' u' h
      refine ⟨hc, hu, ?_⟩
      intro s hs
      obtain ⟨m, hm, hsm⟩ := List.mem_iff_getElem.mp hs
      obtain ⟨j, hj, hjm⟩ := scan_covers roster.length cursor m hn hm
      refine hall j hj s ?_
      have : (cursor + (0 + j)) % roster.length = m := by simpa using hjm
      rw [this, List.getElem?_eq_getElem hm, hsm]
  · intro h
    exact assignAux_exhausted roster used cursor h roster.length 0

/-- Witness for C2 at a concrete roster, cursor and counter state. -/
theorem C2_allocator_correct_witness :
    (([] : List Stakeholder) = [] →
      assign_stakeholder_with_limits 7 [] (fun _ => 0) = (none, 7, fun _ => 0)) ∧
    ((∀ s ∈ [Stakeholder.mk "A" 0], s.limit ≤ (fun _ => 0) s.name) →
      assign_stakeholder_with_limits 3 [Stakeholder.mk "A" 0] (fun _ => 0) =
        (none, 3, fun _ => 0)) :=
  ⟨(C2_allocator_correct [] 7 (fun _ => 0)).1,
   (C2_allocator_correct [Stakeholder.mk "A" 0] 3 (fun _ => 0)).2.2.2⟩

/-- Claim C4, counterexample to the shared-cursor part: with roster
`[A(2), B(2)]`, one Orders lead and one Abandoned lead, the Orders pass ends
with cursor 1, so a shared cursor would send the Abandoned lead to `B`; the
code restarts at cursor 0 and sends it to `A` again. -/
theorem C4_counterexample :
    (twoSourceRun [⟨"A", 2⟩, ⟨"B", 2⟩] 1 1).2 = [some "A"] ∧
    (processLeads [⟨"A", 2⟩, ⟨"B", 2⟩] 1 0 (fun _ => 0)).2.1 = 1 ∧
    (processLeads [⟨"A", 2⟩, ⟨"B", 2⟩] 1
      (processLeads [⟨"A", 2⟩, ⟨"B", 2⟩] 1 0 (fun _ => 0)).2.1
      (processLeads [⟨"A", 2⟩, ⟨"B", 2⟩] 1 0 (fun _ => 0)).2.2).1 = [some "B"] := by
  refine ⟨by decide, by decide, by decide⟩

/-- Claim C4 amended: the Orders pass and the Abandoned pass share one
usage-counter state, so capacity is a global daily budget — the leads a
stakeholder receives across both passes never exceed its limit; but each
pass restarts the round-robin cursor at 0 instead of continuing from the
other pass's final cursor. -/
theorem C4_amended (roster : List Stakeholder)
    (hnd : (roster.map Stakeholder.name).Nodup) (nOrders nAbandoned : Nat)
    (s : Stakeholder) (hs : s ∈ roster) :
    (twoSourceRun roster nOrders nAbandoned).1.count (some s.name) +
      (twoSourceRun roster nOrders nAbandoned).2.count (some s.name) ≤ s.limit := by
  simp only [twoSourceRun]
  have hz : ∀ t ∈ roster, (fun _ => (0 : Nat)) t.name ≤ t.limit := by simp
  obtain ⟨h1, h2⟩ := processLeads_count roster hnd nOrders 0 (fun _ => 0) hz s hs
  have hinv1 : ∀ t ∈ roster, (processLeads roster nOrders 0 (fun _ => 0)).2.2 t.name ≤ t.limit := by
    intro t ht
    obtain ⟨ha, hb⟩ := processLeads_count roster hnd nOrders 0 (fun _ => 0) hz t ht
    omega
  obtain ⟨h3, h4⟩ := processLeads_count roster hnd nAbandoned 0
    (processLeads roster nOrders 0 (fun _ => 0)).2.2 hinv1 s hs
  omega

/-- Witness for the amended C4 at a concrete roster and run sizes. -/
theorem C4_amended_witness :
    (twoSourceRun [⟨"A", 2⟩, ⟨"B", 2⟩] 3 4).1.count (some "A") +
      (twoSourceRun [⟨"A", 2⟩, ⟨"B", 2⟩] 3 4).2.count (some "A") ≤ 2 :=
  C4_amended [⟨"A", 2⟩, ⟨"B", 2⟩] (by decide) 3 4 ⟨"A", 2⟩ (by decide)

/-- Claim C3, counterexample: `"Follow up"` is in the retry status set, and
the claim predicts that a lead with a value already in slot 1 keeps slot 1
and gets today in slot 2.  The Orders pass instead overwrites slot 1 with
today (its retry branch only fires for `"Call didn\x27t Pick"`), and the
Abandoned pass leaves every slot untouched (its branch compares against
`"Follow Up"` with a capital U). -/
theorem C3_counterexample :
    "Follow up" ∈ specRetryStatusSet ∧
    (ordersDateUpdate "Follow up" "02-Jan-2025" ⟨"01-Jan-2025", "", ""⟩).d1 ≠ "01-Jan-2025" ∧
    (ordersDateUpdate "Follow up" "02-Jan-2025" ⟨"01-Jan-2025", "", ""⟩).d2 ≠ "02-Jan-2025" ∧
    abandonedDateUpdate "Follow up" "02-Jan-2025" ⟨"01-Jan-2025", "", ""⟩ =
      ⟨"01-Jan-2025", "", ""⟩ := by
  refine ⟨by decide, by decide, by decide, by decide⟩

/-- Claim C3 amended: fill-the-first-empty-slot applies only to
`"Call didn\x27t Pick"` on Orders and `"Didn\x27t Pickup"` on Abandoned (the
Abandoned variant also clears the slots after the one it fills); when all
three slots are filled neither pass changes any slot (Abandoned rewrites the
stripped originals); a `"Follow up"` lead is handled by the fresh regime on
Orders (slot 1 := today, slots 2 and 3 cleared) and keeps all of its slots
unchanged on Abandoned. -/
theorem C3_amended (today : String) (d : DateSlots) :
    (pyStrip d.d1 = "" →
      ordersDateUpdate "Call didn\x27t Pick" today d = { d with d1 := today }) ∧
    (pyStrip d.d1 ≠ "" → pyStrip d.d2 = "" →
      ordersDateUpdate "Call didn\x27t Pick" today d = { d with d2 := today }) ∧
    (pyStrip d.d1 ≠ "" → pyStrip d.d2 ≠ "" → pyStrip d.d3 = "" →
      ordersDateUpdate "Call didn\x27t Pick" today d = { d with d3 := today }) ∧
    (pyStrip d.d1 ≠ "" → pyStrip d.d2 ≠ "" → pyStrip d.d3 ≠ "" →
      ordersDateUpdate "Call didn\x27t Pick" today d = d) ∧
    (ordersDateUpdate "Follow up" today d = ⟨today, "", ""⟩) ∧
    (pyStrip d.d1 = "" →
      abandonedDateUpdate "Didn\x27t Pickup" today d = ⟨today, "", ""⟩) ∧
    (pyStrip d.d1 ≠ "" → pyStrip d.d2 = "" →
      abandonedDateUpdate "Didn\x27t Pickup" today d = ⟨d.d1, today, ""⟩) ∧
    (pyStrip d.d1 ≠ "" → pyStrip d.d2 ≠ "" → pyStrip d.d3 = "" →
      abandonedDateUpdate "Didn\x27t Pickup" today d = ⟨d.d1, d.d2, today⟩) ∧
    (pyStrip d.d1 ≠ "" → pyStrip d.d2 ≠ "" → pyStrip d.d3 ≠ "" →
      abandonedDateUpdate "Didn\x27t Pickup" today d = ⟨pyStrip d.d1, pyStrip d.d2, pyStrip d.d3⟩) ∧
    (abandonedDateUpdate "Follow up" today d = d) := by
  refine ⟨?_, ?_, ?_, ?_, ?_, ?_, ?_, ?_, ?_, ?_⟩
  · intro h1; simp [ordersDateUpdate, h1]
  · intro h1 h2; simp [ordersDateUpdate, h1, h2]
  · intro h1 h2 h3; simp [ordersDateUpdate, h1, h2, h3]
  · intro h1 h2 h3; simp [ordersDateUpdate, h1, h2, h3]
  · simp [ordersDateUpdate]
  · intro h1; simp [abandonedDateUpdate, h1]
  · intro h1 h2; simp [abandonedDateUpdate, h1, h2]
  · intro h1 h2 h3; simp [abandonedDateUpdate, h1, h2, h3]
  · intro h1 h2 h3; simp [abandonedDateUpdate, h1, h2, h3]
  · simp [abandonedDateUpdate]

/-- Witness for the amended C3 at concrete slot values. -/
theorem C3_amended_witness :
    pyStrip "01-Jan-2025" ≠ "" ∧
    ordersDateUpdate "Call didn\x27t Pick" "02-Jan-2025" ⟨"01-Jan-2025", "", ""⟩ =
      ⟨"01-Jan-2025", "02-Jan-2025", ""⟩ :=
  ⟨by decide,
   (C3_amended "02-Jan-2025" ⟨"01-Jan-2025", "", ""⟩).2.1 (by decide) (by decide)⟩

/-- Claim C9: every assignable status outside the retry set is handled by the
fresh regime — slot 1 is (re)stamped with today and slots 2 and 3 are
cleared, whatever the slots held before.  On Orders this is every eligible
status other than the retry ones; on Abandoned it is the blank status. -/
theorem C9_fresh_overwrite (s today : String) (d : DateSlots)
    (hs : s ∈ all_priority_statuses) (hr : s ∉ specRetryStatusSet) :
    ordersDateUpdate s today d = ⟨today, "", ""⟩ ∧
    (∀ t, t ∈ abandoned_statuses_to_process → t ∉ specRetryStatusSet →
      abandonedDateUpdate t today d = ⟨today, "", ""⟩) := by
  constructor
  · have hne : s ≠ "Call didn\x27t Pick" := by
      intro h
      subst h
      exact hr (by decide)
    simp [ordersDateUpdate, hne]
  · intro t ht hrt
    have ht' : t = "" ∨ t = "Didn\x27t Pickup" ∨ t = "Follow up" := by
      simpa [abandoned_statuses_to_process] using ht
    rcases ht' with rfl | rfl | rfl
    · simp [abandonedDateUpdate]
    · exact absurd (by decide) hrt
    · exact absurd (by decide) hrt

/-- Witness for C9: a fresh-status lead with all three slots filled. -/
theorem C9_fresh_overwrite_witness :
    ordersDateUpdate "Fresh" "02-Jan-2025" ⟨"01-Jan-2025", "15-Dec-2024", "16-Dec-2024"⟩ =
      ⟨"02-Jan-2025", "", ""⟩ :=
  (C9_fresh_overwrite "Fresh" "02-Jan-2025" ⟨"01-Jan-2025", "15-Dec-2024", "16-Dec-2024"⟩
    (by decide) (by decide)).1

/-- One data row of the Abandoned sheet, restricted to the columns the pass
touches.  `callingStatus` models the `Call status` cell after the column was
stripped on load (line 338); `stakeholder` is `Stake Holder`;
`initialCategory` is `Initial Assignment Category`. -/
structure AbLeadRow where
  callingStatus : String
  stakeholder : String
  dates : DateSlots
  initialCategory : String
deriving DecidableEq, Repr

/-- Row filter of the Abandoned pass (distributionV2.py lines 339-340). -/
def eligibleAbandoned (row : AbLeadRow) : Bool :=
  abandoned_statuses_to_process.contains row.callingStatus

/-- Per-lead body of the Abandoned loop (distributionV2.py lines 350-383):
on `none` the row is not touched (`continue`, line 351); on success the
stakeholder cell, the initial category and the date slots are updated. -/
def processAbandonedRow (roster : List Stakeholder) (cursor : Nat) (used : String → Nat)
    (today : String) (row : AbLeadRow) : AbLeadRow × Nat × (String → Nat) :=
  match assign_stakeholder_with_limits cursor roster used with
  | (none, c', u') => (row, c', u')
  | (some nm, c', u') =>
    (⟨row.callingStatus, nm, abandonedDateUpdate row.callingStatus today row.dates,
      "Abandoned"⟩, c', u')

/-- Batch-write selection for an eligible row (distributionV2.py lines
398-402): the row is included in the batch update exactly when its
stakeholder cell is non-empty after the loop.  (With the standard sheet
header every selected row also satisfies the modified-target-column check of
lines 410-421, since `Stake Holder` is a target column.) -/
def abandonedWriteSelected (row : AbLeadRow) : Bool :=
  row.stakeholder ≠ ""

/-- The Abandoned pass over a row list: eligible rows run the per-lead body
and are flagged for the batch write by `abandonedWriteSelected`; ineligible
rows pass through untouched and unselected. -/
def abandonedPass (roster : List Stakeholder) (today : String) :
    List AbLeadRow → Nat → (String → Nat) → List (AbLeadRow × Bool) × (String → Nat)
  | [], _, used => ([], used)
  | row :: rest, cursor, used =>
    if eligibleAbandoned row then
      let r := processAbandonedRow roster cursor used today row
      let tail := abandonedPass roster today rest r.2.1 r.2.2
      ((r.1, abandonedWriteSelected r.1) :: tail.1, tail.2)
    else
      let tail := abandonedPass roster today rest cursor used
      ((row, false) :: tail.1, tail.2)

/-- Claim C5, counterexample: with an exhausted roster, an eligible lead
whose stakeholder cell already holds `"B"` receives `none`; its row is left
unmutated but it is still selected for the batch write-back, contradicting
the claim that such leads are excluded from the write. -/
theorem C5_counterexample :
    (assign_stakeholder_with_limits 0 [⟨"A", 0⟩] (fun _ => 0)).1 = none ∧
    (abandonedPass [⟨"A", 0⟩] "02-Jan-2025"
      [⟨"Didn\x27t Pickup", "B", ⟨"01-Jan-2025", "", ""⟩, "Abandoned"⟩] 0 (fun _ => 0)).1 =
      [(⟨"Didn\x27t Pickup", "B", ⟨"01-Jan-2025", "", ""⟩, "Abandoned"⟩, true)] := by
  refine ⟨by decide, by decide⟩

/-- Claim C5 amended: an eligible lead for which the allocator returns
`none` is left entirely unmutated, and it is excluded from the batch
write-back exactly when its stakeholder cell is empty; a row whose cell
already held a stakeholder from an earlier run is re-written (with unchanged
values). -/
theorem C5_amended (roster : List Stakeholder) (today : String) (cursor : Nat)
    (used : String → Nat) (row : AbLeadRow) (rest : List AbLeadRow)
    (helig : eligibleAbandoned row = true)
    (hnone : (assign_stakeholder_with_limits cursor roster used).1 = none) :
    (processAbandonedRow roster cursor used today row).1 = row ∧
    ((abandonedPass roster today (row :: rest) cursor used).1.head? =
      some (row, abandonedWriteSelected row)) ∧
    (abandonedWriteSelected row = true ↔ row.stakeholder ≠ "") := by
  rcases h : assign_stakeholder_with_limits cursor roster used with ⟨res, c', u'⟩
  rw [h] at hnone
  simp only at hnone
  subst hnone
  have hrow : (processAbandonedRow roster cursor used today row).1 = row := by
    simp [processAbandonedRow, h]
  refine ⟨hrow, ?_, ?_⟩
  · simp only [abandonedPass, helig, if_true, List.head?_cons, hrow]
  · simp [abandonedWriteSelected]

/-- Witness for the amended C5: an eligible lead with a blank stakeholder
cell and an exhausted roster is unmutated and excluded from the write. -/
theorem C5_amended_witness :
    (processAbandonedRow [⟨"A", 0⟩] 0 (fun _ => 0) "02-Jan-2025"
      ⟨"", "", ⟨"", "", ""⟩, ""⟩).1 = ⟨"", "", ⟨"", "", ""⟩, ""⟩ ∧
    ((abandonedPass [⟨"A", 0⟩] "02-Jan-2025" [⟨"", "", ⟨"", "", ""⟩, ""⟩] 0 (fun _ => 0)).1.head? =
      some (⟨"", "", ⟨"", "", ""⟩, ""⟩, abandonedWriteSelected ⟨"", "", ⟨"", "", ""⟩, ""⟩)) ∧
    (abandonedWriteSelected ⟨"", "", ⟨"", "", ""⟩, ""⟩ = true ↔
      (⟨"", "", ⟨"", "", ""⟩, ""⟩ : AbLeadRow).stakeholder ≠ "") :=
  C5_amended [⟨"A", 0⟩] "02-Jan-2025" 0 (fun _ => 0) ⟨"", "", ⟨"", "", ""⟩, ""⟩ []
    (by decide) (by decide)

/-- `INITIAL_ASSIGNMENT_STATUSES_ORDERS` (performance_analyzer.py lines
68-76): for each initial category, the raw statuses still counted as
pending. -/
def INITIAL_ASSIGNMENT_STATUSES_ORDERS : List (String × List String) :=
  [("Fresh", ["Fresh", "Confirmation Pending"]),
   ("NDR", ["NDR"]),
   ("CNP", ["Call didn\x27t Pick"]),
   ("Follow up", ["Follow up"]),
   ("Invalid/Fake", ["Number invalid/fake order"])]

/-- The flattened value lists of `INITIAL_ASSIGNMENT_STATUSES_ORDERS`,
as built for the `"Unknown"` category (performance_analyzer.py line 502). -/
def generic_initial_statuses : List String :=
  (INITIAL_ASSIGNMENT_STATUSES_ORDERS.map Prod.snd).flatten

/-- `INITIAL_ASSIGNMENT_STATUSES_ABANDONED` (performance_analyzer.py
line 78). -/
def INITIAL_ASSIGNMENT_STATUSES_ABANDONED : List String :=
  ["", "Didn\x27t Pickup", "Follow Up"]

/-- How one data row is accounted by the reconciliation scan: actioned,
pending, skipped for blank initial category, or skipped for any other
reason (short row, unknown stakeholder, date mismatch). -/
inductive RowClass
  | actioned
  | pending
  | skippedBlank
  | skippedOther
deriving DecidableEq, Repr

/-- The `is_actioned` decision of `process_orders_sheet_for_actions`
(performance_analyzer.py lines 489-510), negated: the row is pending when
its current status is still in the pending set of its stored category, or —
for category `"Unknown"` — in the generic initial-status list. -/
def isPendingOrders (cat status : String) : Bool :=
  match INITIAL_ASSIGNMENT_STATUSES_ORDERS.find? (fun p => p.1 == cat) with
  | some p => p.2.contains status
  | none => if cat = "Unknown" then generic_initial_statuses.contains status else false

/-- Row accounting of `process_orders_sheet_for_actions`
(performance_analyzer.py lines 440-534).  The row layout fixes the header
columns in the order the code looks them up: 0 `Stakeholder`,
1 `Call-status`, 2 `Date`, 3 `Date 2`, 4 `Date 3`,
5 `Initial Assignment Category`; the guard `row.length ≤ 5` is the
`len(row_data) <= max_needed_idx` skip of lines 446-448. -/
def classifyOrdersRow (stakeholder_names today_date_formats : List String)
    (row : List String) : RowClass :=
  if row.length ≤ 5 then .skippedOther
  else
    let stakeholder := pyStrip (row.getD 0 "")
    if stakeholder = "" ∨ ¬ stakeholder_names.contains stakeholder then .skippedOther
    else
      let date1_val := pyStrip (row.getD 2 "")
      let date2_val := pyStrip (row.getD 3 "")
      let date3_val := pyStrip (row.getD 4 "")
      if ¬ (today_date_formats.contains date1_val ∨ today_date_formats.contains date2_val ∨
            today_date_formats.contains date3_val) then .skippedOther
      else
        let initial_category := pyStrip (row.getD 5 "")
        if initial_category = "" then .skippedBlank
        else if isPendingOrders initial_category (pyStrip (row.getD 1 "")) then .pending
        else .actioned

/-- Row accounting of `process_abandoned_sheet_for_actions`
(performance_analyzer.py lines 595-667), same fixed layout: 0 `Stake
Holder`, 1 `Call status`, 2 `Date 1`, 3 `Date 2`, 4 `Date 3`, 5 `Initial
Assignment Category`.  A row is pending exactly when its current status is
in `INITIAL_ASSIGNMENT_STATUSES_ABANDONED` (lines 640-642). -/
def classifyAbandonedRow (stakeholder_names today_date_formats : List String)
    (row : List String) : RowClass :=
  if row.length ≤ 5 then .skippedOther
  else
    let stakeholder := pyStrip (row.getD 0 "")
    if stakeholder = "" ∨ ¬ stakeholder_names.contains stakeholder then .skippedOther
    else
      let date1_val := pyStrip (row.getD 2 "")
      let date2_val := pyStrip (row.getD 3 "")
      let date3_val := pyStrip (row.getD 4 "")
      if ¬ (today_date_formats.contains date1_val ∨ today_date_formats.contains date2_val ∨
            today_date_formats.contains date3_val) then .skippedOther
      else
        let initial_category := pyStrip (row.getD 5 "")
        if initial_category = "" then .skippedBlank
        else if INITIAL_ASSIGNMENT_STATUSES_ABANDONED.contains (pyStrip (row.getD 1 ""))
          then .pending
        else .actioned

/-- Number of data rows a reconciliation scan accounts under class `k`. -/
def countClass (classify : List String → RowClass) (rows : List (List String))
    (k : RowClass) : Nat :=
  (rows.filter (fun r => classify r = k)).length

/-- Modelled from the spec: a row "matching a roster stakeholder and the
target date" — its stakeholder cell strips to a non-blank roster name and
one of its three date cells strips to an accepted representation of today.
Missing cells read as blank; no condition on how many cells the API
returned for the row. -/
def matchesStakeholderAndDate (stakeholder_names today_date_formats : List String)
    (row : List String) : Bool :=
  if pyStrip (row.getD 0 "") = "" ∨
      ¬ stakeholder_names.contains (pyStrip (row.getD 0 "")) then false
  else if ¬ (today_date_formats.contains (pyStrip (row.getD 2 "")) ∨
      today_date_formats.contains (pyStrip (row.getD 3 "")) ∨
      today_date_formats.contains (pyStrip (row.getD 4 ""))) then false
  else true

/-- A row avoids the skipped-other tally exactly when the API returned all
six columns for it and it matches stakeholder and date (Orders scan). -/
theorem classifyOrdersRow_other_iff (names fmts : List String) (row : List String) :
    (classifyOrdersRow names fmts row ≠ RowClass.skippedOther) ↔
      (5 < row.length ∧ matchesStakeholderAndDate names fmts row = true) := by
  unfold classifyOrdersRow matchesStakeholderAndDate
  by_cases h1 : row.length ≤ 5
  · simp only [if_pos h1]
    constructor
    · intro hco
      exact absurd rfl hco
    · rintro ⟨hlt, _⟩
      exact absurd hlt (by omega)
  · simp only [if_neg h1]
    have hlen : 5 < row.length := by omega
    by_cases h2 : pyStrip (row.getD 0 "") = "" ∨ ¬ names.contains (pyStrip (row.getD 0 ""))
    · simp only [if_pos h2]
      simp
    · simp only [if_neg h2]
      by_cases h3 : ¬ (fmts.contains (pyStrip (row.getD 2 "")) ∨
          fmts.contains (pyStrip (row.getD 3 "")) ∨ fmts.contains (pyStrip (row.getD 4 "")))
      · simp only [if_pos h3]
        simp
      · simp only [if_neg h3]
        constructor
        · intro _
          exact ⟨hlen, trivial⟩
        · intro _
          split
          · simp
          · split <;> simp

/-- A row avoids the skipped-other tally exactly when the API returned all
six columns for it and it matches stakeholder and date (Abandoned scan). -/
theorem classifyAbandonedRow_other_iff (names fmts : List String) (row : List String) :
    (classifyAbandonedRow names fmts row ≠ RowClass.skippedOther) ↔
      (5 < row.length ∧ matchesStakeholderAndDate names fmts row = true) := by
  unfold classifyAbandonedRow matchesStakeholderAndDate
  by_cases h1 : row.length ≤ 5
  · simp only [if_pos h1]
    constructor
    · intro hco
      exact absurd rfl hco
    · rintro ⟨hlt, _⟩
      exact absurd hlt (by omega)
  · simp only [if_neg h1]
    have hlen : 5 < row.length := by omega
    by_cases h2 : pyStrip (row.getD 0 "") = "" ∨ ¬ names.contains (pyStrip (row.getD 0 ""))
    · simp only [if_pos h2]
      simp
    · simp only [if_neg h2]
      by_cases h3 : ¬ (fmts.contains (pyStrip (row.getD 2 "")) ∨
          fmts.contains (pyStrip (row.getD 3 "")) ∨ fmts.contains (pyStrip (row.getD 4 "")))
      · simp only [if_pos h3]
        simp
      · simp only [if_neg h3]
        constructor
        · intro _
          exact ⟨hlen, trivial⟩
        · intro _
          split
          · simp
          · split <;> simp

/-- Prepending a row adds one to exactly the count of its class. -/
theorem countClass_cons (classify : List String → RowClass) (r : List String)
    (rest : List (List String)) (k : RowClass) :
    countClass classify (r :: rest) k =
      (if classify r = k then 1 else 0) + countClass classify rest k := by
  simp only [countClass, List.filter_cons]
  by_cases h : classify r = k
  · simp [h]
    omega
  · simp [h]

/-- Every scanned row lands in exactly one of the four tallies. -/
theorem countClass_partition (classify : List String → RowClass) (rows : List (List String)) :
    countClass classify rows .actioned + countClass classify rows .pending +
      countClass classify rows .skippedBlank + countClass classify rows .skippedOther =
      rows.length := by
  induction rows with
  | nil => simp [countClass]
  | cons r rest ih =>
    rw [countClass_cons, countClass_cons, countClass_cons, countClass_cons, List.length_cons]
    rcases h : classify r with _ | _ | _ | _ <;> simp [h] <;> omega

/-- The actioned, pending and blank-category tallies together count exactly
the rows matching stakeholder and date. -/
theorem countClass_matching (classify : List String → RowClass)
    (sel : List String → Bool) (rows : List (List String))
    (hrow : ∀ r, (classify r ≠ RowClass.skippedOther) ↔ sel r = true) :
    countClass classify rows .actioned + countClass classify rows .pending +
      countClass classify rows .skippedBlank = (rows.filter sel).length := by
  induction rows with
  | nil => simp [countClass]
  | cons r rest ih =>
    rw [countClass_cons, countClass_cons, countClass_cons, List.filter_cons]
    rcases h : classify r with _ | _ | _ | _
    · have hm : sel r = true := (hrow r).mp (by simp [h])
      simp [hm]
      omega
    · have hm : sel r = true := (hrow r).mp (by simp [h])
      simp [hm]
      omega
    · have hm : sel r = true := (hrow r).mp (by simp [h])
      simp [hm]
      omega
    · have hm : ¬ sel r = true := fun hc => by
        have hco := (hrow r).mpr hc
        exact hco h
      simp [hm]
      omega

/-- Claim C8, counterexample: one row matching stakeholder and date but with
a blank initial category, plus one row whose stakeholder is not in the
roster.  The four tallies sum to 2 (the second row is counted in
skippedOther), while only 1 row matches stakeholder and date. -/
theorem C8_counterexample :
    countClass (classifyOrdersRow ["A"] ["01-Jan-2025", "1-Jan-2025"])
        [["A", "Fresh", "01-Jan-2025", "", "", ""], ["Z", "Fresh", "01-Jan-2025", "", "", ""]]
        RowClass.actioned +
      countClass (classifyOrdersRow ["A"] ["01-Jan-2025", "1-Jan-2025"])
        [["A", "Fresh", "01-Jan-2025", "", "", ""], ["Z", "Fresh", "01-Jan-2025", "", "", ""]]
        RowClass.pending +
      countClass (classifyOrdersRow ["A"] ["01-Jan-2025", "1-Jan-2025"])
        [["A", "Fresh", "01-Jan-2025", "", "", ""], ["Z", "Fresh", "01-Jan-2025", "", "", ""]]
        RowClass.skippedBlank +
      countClass (classifyOrdersRow ["A"] ["01-Jan-2025", "1-Jan-2025"])
        [["A", "Fresh", "01-Jan-2025", "", "", ""], ["Z", "Fresh", "01-Jan-2025", "", "", ""]]
        RowClass.skippedOther ≠
    ([["A", "Fresh", "01-Jan-2025", "", "", ""],
      ["Z", "Fresh", "01-Jan-2025", "", "", ""]].filter
        (matchesStakeholderAndDate ["A"] ["01-Jan-2025", "1-Jan-2025"])).length := by
  decide

/-- Claim C8 amended: for both lead sources, the four tallies partition the
full set of scanned data rows (their sum is the total number of data rows,
not the number of rows matching stakeholder and date); the actioned, pending
and blank-category tallies alone sum to the number of rows that match a
roster stakeholder and the target date AND carry all six columns; a matching
row the API returned trimmed (five cells or fewer) is tallied skippedOther
instead. -/
theorem C8_amended (names fmts : List String) (rows : List (List String)) :
    (countClass (classifyOrdersRow names fmts) rows .actioned +
        countClass (classifyOrdersRow names fmts) rows .pending +
        countClass (classifyOrdersRow names fmts) rows .skippedBlank +
        countClass (classifyOrdersRow names fmts) rows .skippedOther = rows.length) ∧
    (countClass (classifyOrdersRow names fmts) rows .actioned +
        countClass (classifyOrdersRow names fmts) rows .pending +
        countClass (classifyOrdersRow names fmts) rows .skippedBlank =
      (rows.filter (fun r => decide (5 < r.length) &&
        matchesStakeholderAndDate names fmts r)).length) ∧
    (countClass (classifyAbandonedRow names fmts) rows .actioned +
        countClass (classifyAbandonedRow names fmts) rows .pending +
        countClass (classifyAbandonedRow names fmts) rows .skippedBlank +
        countClass (classifyAbandonedRow names fmts) rows .skippedOther = rows.length) ∧
    (countClass (classifyAbandonedRow names fmts) rows .actioned +
        countClass (classifyAbandonedRow names fmts) rows .pending +
        countClass (classifyAbandonedRow names fmts) rows .skippedBlank =
      (rows.filter (fun r => decide (5 < r.length) &&
        matchesStakeholderAndDate names fmts r)).length) ∧
    (∀ row, row.length ≤ 5 → matchesStakeholderAndDate names fmts row = true →
      classifyOrdersRow names fmts row = RowClass.skippedOther ∧
      classifyAbandonedRow names fmts row = RowClass.skippedOther) := by
  refine ⟨countClass_partition _ rows, ?_, countClass_partition _ rows, ?_, ?_⟩
  · refine countClass_matching _ _ rows ?_
    intro r
    rw [classifyOrdersRow_other_iff]
    simp
  · refine countClass_matching _ _ rows ?_
    intro r
    rw [classifyAbandonedRow_other_iff]
    simp
  · intro row hle _
    constructor
    · unfold classifyOrdersRow
      rw [if_pos hle]
    · unfold classifyAbandonedRow
      rw [if_pos hle]

/-- Witness for the amended C8: one full matching row, one API-trimmed
matching row; the trimmed row is tallied skippedOther on both scans. -/
theorem C8_amended_witness :
    (countClass (classifyOrdersRow ["A"] ["d"])
        [["A", "s", "d", "", "", "c"], ["A", "s", "d"]] RowClass.actioned +
      countClass (classifyOrdersRow ["A"] ["d"])
        [["A", "s", "d", "", "", "c"], ["A", "s", "d"]] RowClass.pending +
      countClass (classifyOrdersRow ["A"] ["d"])
        [["A", "s", "d", "", "", "c"], ["A", "s", "d"]] RowClass.skippedBlank +
      countClass (classifyOrdersRow ["A"] ["d"])
        [["A", "s", "d", "", "", "c"], ["A", "s", "d"]] RowClass.skippedOther =
      ([["A", "s", "d", "", "", "c"], ["A", "s", "d"]] : List (List String)).length) ∧
    (countClass (classifyOrdersRow ["A"] ["d"])
        [["A", "s", "d", "", "", "c"], ["A", "s", "d"]] RowClass.actioned +
      countClass (classifyOrdersRow ["A"] ["d"])
        [["A", "s", "d", "", "", "c"], ["A", "s", "d"]] RowClass.pending +
      countClass (classifyOrdersRow ["A"] ["d"])
        [["A", "s", "d", "", "", "c"], ["A", "s", "d"]] RowClass.skippedBlank =
      (([["A", "s", "d", "", "", "c"], ["A", "s", "d"]] : List (List String)).filter
        (fun r => decide (5 < r.length) &&
          matchesStakeholderAndDate ["A"] ["d"] r)).length) ∧
    (countClass (classifyAbandonedRow ["A"] ["d"])
        [["A", "s", "d", "", "", "c"], ["A", "s", "d"]] RowClass.actioned +
      countClass (classifyAbandonedRow ["A"] ["d"])
        [["A", "s", "d", "", "", "c"], ["A", "s", "d"]] RowClass.pending +
      countClass (classifyAbandonedRow ["A"] ["d"])
        [["A", "s", "d", "", "", "c"], ["A", "s", "d"]] RowClass.skippedBlank +
      countClass (classifyAbandonedRow ["A"] ["d"])
        [["A", "s", "d", "", "", "c"], ["A", "s", "d"]] RowClass.skippedOther =
      ([["A", "s", "d", "", "", "c"], ["A", "s", "d"]] : List (List String)).length) ∧
    (countClass (classifyAbandonedRow ["A"] ["d"])
        [["A", "s", "d", "", "", "c"], ["A", "s", "d"]] RowClass.actioned +
      countClass (classifyAbandonedRow ["A"] ["d"])
        [["A", "s", "d", "", "", "c"], ["A", "s", "d"]] RowClass.pending +
      countClass (classifyAbandonedRow ["A"] ["d"])
        [["A", "s", "d", "", "", "c"], ["A", "s", "d"]] RowClass.skippedBlank =
      (([["A", "s", "d", "", "", "c"], ["A", "s", "d"]] : List (List String)).filter
        (fun r => decide (5 < r.length) &&
          matchesStakeholderAndDate ["A"] ["d"] r)).length) ∧
    (∀ row, row.length ≤ 5 → matchesStakeholderAndDate ["A"] ["d"] row = true →
      classifyOrdersRow ["A"] ["d"] row = RowClass.skippedOther ∧
      classifyAbandonedRow ["A"] ["d"] row = RowClass.skippedOther) :=
  C8_amended ["A"] ["d"] [["A", "s", "d", "", "", "c"], ["A", "s", "d"]]

/-- Kernel-computable model of python `str.startswith`. -/
def pyStartsWith (s p : String) : Bool :=
  p.data.isPrefixOf s.data

/-- Replacement loop over characters for `pyReplace`; `fuel` bounds the
number of steps by the length of the scanned list. -/
def replaceAux (pat rep : List Char) : List Char → Nat → List Char
  | l, 0 => l
  | l, fuel + 1 =>
    match l with
    | [] => []
    | c :: rest =>
      if pat.isPrefixOf l then rep ++ replaceAux pat rep (l.drop pat.length) fuel
      else c :: replaceAux pat rep rest fuel

/-- Kernel-computable model of python `str.replace` for a non-empty pattern:
replace every occurrence, scanning left to right. -/
def pyReplace (s pat rep : String) : String :=
  ⟨replaceAux pat.data rep.data s.data s.data.length⟩

/-- All-digit decimal reading; `none` on the empty list or any non-digit. -/
def digitsToNat (l : List Char) : Option Nat :=
  if l = [] then none
  else if l.all Char.isDigit then
    some (l.foldl (fun n c => n * 10 + (c.toNat - 48)) 0)
  else none

/-- Kernel-computable model of python `int(str)` on the already-stripped
count strings the report writer emits: optional sign then decimal digits. -/
def pyToInt (s : String) : Option Int :=
  match s.data with
  | '-' :: rest => (digitsToNat rest).map (fun n => -(n : Int))
  | '+' :: rest => (digitsToNat rest).map (fun n => (n : Int))
  | l => (digitsToNat l).map (fun n => (n : Int))

/-- Split at the first dash: python `str.split("-", 1)`. -/
def splitFirstDashAux : List Char → List Char → List String
  | acc, [] => [⟨acc.reverse⟩]
  | acc, c :: rest =>
    if c = '-' then [⟨acc.reverse⟩, ⟨rest⟩] else splitFirstDashAux (c :: acc) rest

/-- Split at the first dash: python `str.split("-", 1)`. -/
def splitFirstDash (s : String) : List String :=
  splitFirstDashAux [] s.data

/-- Block title of one day's assignment report (distributionV2.py line 670,
performance_analyzer.py line 289). -/
def assignReportTitle (d : String) : String :=
  "--- Stakeholder Report for Assignments on " ++ d ++ " ---"

/-- End marker of one day's assignment report (distributionV2.py line 681,
performance_analyzer.py line 290). -/
def assignReportEndTitle (d : String) : String :=
  "--- End of Report for " ++ d ++ " ---"

/-- Parser state of `read_todays_assignment_report` (performance_analyzer.py
lines 283-307): whether the scan is inside today's block, the stakeholder
context for count lines, the parsed per-category counts and totals, and
whether the `break` at the end marker has fired. -/
structure ParseAcc where
  inBlock : Bool
  current : Option String
  data : String → String → Int
  totals : String → Int
  done : Bool

/-- The count-line handling of the parsing loop (performance_analyzer.py
lines 337-366), reached when the stakeholder context `cur` is set: a line of
the shape `- Category - N` stores `N` for `cur` under the category (or as
the total); anything else is ignored. -/
def parseCountLine (assignment_categories : List String) (cur : String) (acc : ParseAcc)
    (cell_value : String) : ParseAcc :=
  if pyStartsWith cell_value "- " then
    let line_content := pyStrip ⟨cell_value.data.drop 1⟩
    match (splitFirstDash line_content).map pyStrip with
    | [category_name, count_str] =>
      match pyToInt count_str with
      | none => acc
      | some count =>
        if category_name = "Total Calls This Run" then
          { acc with totals := fun m => if m = cur then count else acc.totals m }
        else if assignment_categories.contains category_name then
          { acc with
            data := fun m c => if m = cur ∧ c = category_name then count else acc.data m c }
        else acc
    | _ => acc
  else acc

/-- One iteration of the parsing loop of `read_todays_assignment_report`
(performance_analyzer.py lines 308-366) on the stripped cell of one report
row. -/
def parseLine (stakeholder_names assignment_categories : List String) (d : String)
    (acc : ParseAcc) (line : String) : ParseAcc :=
  if acc.done then acc
  else
    let cell_value := pyStrip line
    if cell_value = assignReportTitle d then
      { acc with inBlock := true, current := none }
    else if acc.inBlock then
      if cell_value = assignReportEndTitle d then
        { acc with inBlock := false, done := true }
      else if pyStartsWith cell_value "Calls assigned " then
        let name_part := pyStrip (pyReplace cell_value "Calls assigned " "")
        if stakeholder_names.contains name_part then { acc with current := some name_part }
        else { acc with current := none }
      else
        match acc.current with
        | none => acc
        | some cur => parseCountLine assignment_categories cur acc cell_value
    else acc

/-- Zero-initialised parser state (performance_analyzer.py lines 283-287,
305-306). -/
def initParseAcc : ParseAcc :=
  ⟨false, none, fun _ _ => 0, fun _ => 0, false⟩

/-- `read_todays_assignment_report` restricted to its parsing core: fold the
loop body over the report sheet's column-A cells. -/
def read_todays_assignment_report (stakeholder_names assignment_categories : List String)
    (d : String) (values : List String) : ParseAcc :=
  values.foldl (parseLine stakeholder_names assignment_categories d) initParseAcc

/-- A block title is never equal to the end marker (their lengths differ by
the fixed prefixes). -/
theorem assignTitles_ne (d : String) : assignReportTitle d ≠ assignReportEndTitle d := by
  intro h
  have hlen := congrArg String.length h
  have e1 : ("--- Stakeholder Report for Assignments on " : String).length = 42 := by decide
  have e2 : ("--- End of Report for " : String).length = 22 := by decide
  have e3 : (" ---" : String).length = 4 := by decide
  simp only [assignReportTitle, assignReportEndTitle, String.length_append, e1, e2, e3] at hlen
  omega

/-- A finished parse absorbs every further line. -/
theorem parseLine_done (names cats : List String) (d : String) (acc : ParseAcc) (l : String)
    (h : acc.done = true) : parseLine names cats d acc l = acc := by
  unfold parseLine
  simp [h]

/-- A finished parse absorbs every further line list. -/
theorem foldl_parseLine_done (names cats : List String) (d : String) (acc : ParseAcc)
    (h : acc.done = true) (ls : List String) :
    ls.foldl (parseLine names cats d) acc = acc := by
  induction ls with
  | nil => rfl
  | cons l rest ih =>
    rw [List.foldl_cons, parseLine_done names cats d acc l h]
    exact ih

/-- `parseCountLine` keeps the control fields and touches counters only at
the context stakeholder `cur`. -/
theorem parseCountLine_fields (cats : List String) (cur : String) (acc : ParseAcc)
    (cell : String) :
    (parseCountLine cats cur acc cell).current = acc.current ∧
    (parseCountLine cats cur acc cell).inBlock = acc.inBlock ∧
    (parseCountLine cats cur acc cell).done = acc.done ∧
    (∀ m, m ≠ cur → (parseCountLine cats cur acc cell).totals m = acc.totals m) ∧
    (∀ m c, m ≠ cur → (parseCountLine cats cur acc cell).data m c = acc.data m c) := by
  unfold parseCountLine
  by_cases h0 : pyStartsWith cell "- " = true
  · simp only [if_pos h0]
    rcases hsp : (splitFirstDash (pyStrip ⟨cell.data.drop 1⟩)).map pyStrip with
      _ | ⟨a, _ | ⟨b, _ | ⟨c0, rest⟩⟩⟩
    · simp only [hsp]
      exact ⟨by simp, by simp, by simp, fun m h => by simp [h], fun m c h => by simp [h]⟩
    · simp only [hsp]
      exact ⟨by simp, by simp, by simp, fun m h => by simp [h], fun m c h => by simp [h]⟩
    · simp only [hsp]
      rcases hint : pyToInt b with _ | count
      · simp only [hint]
        exact ⟨by simp, by simp, by simp, fun m h => by simp [h], fun m c h => by simp [h]⟩
      · simp only [hint]
        by_cases hcat : a = "Total Calls This Run"
        · simp only [if_pos hcat]
          exact ⟨by simp, by simp, by simp, fun m h => by simp [h], fun m c h => by simp [h]⟩
        · simp only [if_neg hcat]
          by_cases hcat2 : cats.contains a = true
          · simp only [if_pos hcat2]
            exact ⟨by simp, by simp, by simp, fun m h => by simp [h], fun m c h => by simp [h]⟩
          · simp only [if_neg hcat2]
            exact ⟨by simp, by simp, by simp, fun m h => by simp [h], fun m c h => by simp [h]⟩
    · simp only [hsp]
      exact ⟨by simp, by simp, by simp, fun m h => by simp [h], fun m c h => by simp [h]⟩
  · simp only [if_neg h0]
    exact ⟨by simp, by simp, by simp, fun m h => by simp [h], fun m c h => by simp [h]⟩

/-- With no stakeholder context, one line never changes any counter and
never creates a context unless it is a recognised stakeholder header. -/
theorem parseLine_current_none (names cats : List String) (d : String) (acc : ParseAcc)
    (line : String) (hc : acc.current = none)
    (hnr : ¬(pyStartsWith (pyStrip line) "Calls assigned " = true ∧
      names.contains (pyStrip (pyReplace (pyStrip line) "Calls assigned " "")) = true)) :
    (parseLine names cats d acc line).data = acc.data ∧
    (parseLine names cats d acc line).totals = acc.totals ∧
    (parseLine names cats d acc line).current = none := by
  unfold parseLine
  by_cases hdone : acc.done = true
  · simp [hdone, hc]
  · simp only [if_neg hdone]
    by_cases h1 : pyStrip line = assignReportTitle d
    · simp [h1, hc]
    · simp only [if_neg h1]
      by_cases hb : acc.inBlock = true
      · simp only [hb, if_true]
        by_cases h2 : pyStrip line = assignReportEndTitle d
        · simp [h2, hc]
        · simp only [if_neg h2]
          by_cases h3 : pyStartsWith (pyStrip line) "Calls assigned " = true
          · have h4 : pyStrip (pyReplace (pyStrip line) "Calls assigned " "") ∉ names := by
              have hh : ¬ names.contains
                  (pyStrip (pyReplace (pyStrip line) "Calls assigned " "")) = true :=
                fun hh => hnr ⟨h3, hh⟩
              simpa using hh
            simp [h3, h4, hc]
          · simp [h3, hc]
      · simp [hb, hc]

/-- Folding lines that contain no recognised stakeholder header, from a
state with no context, leaves all parsed counters unchanged. -/
theorem foldl_parseLine_current_none (names cats : List String) (d : String) :
    ∀ (lines : List String) (acc : ParseAcc), acc.current = none →
      (∀ l ∈ lines, ¬(pyStartsWith (pyStrip l) "Calls assigned " = true ∧
        names.contains (pyStrip (pyReplace (pyStrip l) "Calls assigned " "")) = true)) →
      (lines.foldl (parseLine names cats d) acc).data = acc.data ∧
      (lines.foldl (parseLine names cats d) acc).totals = acc.totals := by
  intro lines
  induction lines with
  | nil => exact fun acc hc _ => ⟨rfl, rfl⟩
  | cons l rest ih =>
    intro acc hc hall
    obtain ⟨hd, ht, hc'⟩ := parseLine_current_none names cats d acc l hc
      (hall l (List.mem_cons_self l rest))
    obtain ⟨ihd, iht⟩ := ih (parseLine names cats d acc l) hc'
      (fun x hx => hall x (List.mem_cons_of_mem l hx))
    rw [List.foldl_cons]
    exact ⟨ihd.trans hd, iht.trans ht⟩

/-- One parsing step preserves the outside-roster invariant: the context is
always a roster member, and the counters of a non-member stay zero. -/
theorem parseLine_outside (names cats : List String) (d : String) (m : String)
    (hm : names.contains m = false) (acc : ParseAcc) (line : String)
    (hcur : ∀ n, acc.current = some n → names.contains n = true)
    (ht : acc.totals m = 0) (hd : ∀ c, acc.data m c = 0) :
    (∀ n, (parseLine names cats d acc line).current = some n → names.contains n = true) ∧
    (parseLine names cats d acc line).totals m = 0 ∧
    (∀ c, (parseLine names cats d acc line).data m c = 0) := by
  unfold parseLine
  by_cases hdone : acc.done = true
  · simp only [if_pos hdone]
    exact ⟨hcur, ht, hd⟩
  · simp only [if_neg hdone]
    by_cases h1 : pyStrip line = assignReportTitle d
    · simp only [if_pos h1]
      exact ⟨fun n hn => by simp at hn, ht, hd⟩
    · simp only [if_neg h1]
      by_cases hb : acc.inBlock = true
      · simp only [hb, if_true]
        by_cases h2 : pyStrip line = assignReportEndTitle d
        · simp only [if_pos h2]
          exact ⟨fun n hn => hcur n hn, ht, hd⟩
        · simp only [if_neg h2]
          by_cases h3 : pyStartsWith (pyStrip line) "Calls assigned " = true
          · simp only [if_pos h3]
            by_cases h4 : names.contains
                (pyStrip (pyReplace (pyStrip line) "Calls assigned " "")) = true
            · simp only [if_pos h4]
              refine ⟨fun n hn => ?_, ht, hd⟩
              simp only at hn
              injection hn with he
              rw [← he]
              exact h4
            · simp only [if_neg h4]
              exact ⟨fun n hn => by simp at hn, ht, hd⟩
          · simp only [if_neg h3]
            rcases hacc : acc.current with _ | cur
            · exact ⟨fun n hn => by rw [hacc] at hn; simp at hn, ht, hd⟩
            · have hcin : names.contains cur = true := hcur cur hacc
              have hmc : m ≠ cur := by
                intro he
                subst he
                rw [hm] at hcin
                cases hcin
              obtain ⟨f1, f2, f3, f4, f5⟩ :=
                parseCountLine_fields cats cur acc (pyStrip line)
              refine ⟨fun n hn => ?_, ?_, fun c => ?_⟩
              · rw [f1, hacc] at hn
                injection hn with he
                rw [← he]
                exact hcin
              · rw [f4 m hmc]
                exact ht
              · rw [f5 m c hmc]
                exact hd c
      · simp only [hb]
        simp only [Bool.false_eq_true, if_false]
        exact ⟨hcur, ht, hd⟩

/-- Counters of a non-roster name stay zero through a whole report parse. -/
theorem read_report_outside (names cats : List String) (d : String) (m : String)
    (hm : names.contains m = false) (values : List String) :
    (read_todays_assignment_report names cats d values).totals m = 0 ∧
    ∀ c, (read_todays_assignment_report names cats d values).data m c = 0 := by
  unfold read_todays_assignment_report
  suffices h : ∀ (vs : List String) (acc : ParseAcc),
      (∀ n, acc.current = some n → names.contains n = true) → acc.totals m = 0 →
      (∀ c, acc.data m c = 0) →
      (∀ n, (vs.foldl (parseLine names cats d) acc).current = some n →
        names.contains n = true) ∧
      (vs.foldl (parseLine names cats d) acc).totals m = 0 ∧
      (∀ c, (vs.foldl (parseLine names cats d) acc).data m c = 0) by
    obtain ⟨_, h2, h3⟩ := h values initParseAcc
      (fun n hn => by simp [initParseAcc] at hn) rfl (fun c => rfl)
    exact ⟨h2, h3⟩
  intro vs
  induction vs with
  | nil => exact fun acc h1 h2 h3 => ⟨h1, h2, h3⟩
  | cons v rest ih =>
    intro acc h1 h2 h3
    obtain ⟨g1, g2, g3⟩ := parseLine_outside names cats d m hm acc v h1 h2 h3
    simp only [List.foldl_cons]
    exact ih (parseLine names cats d acc v) g1 g2 g3

/-- Inside the block, the end marker of the requested date fires the break
flag. -/
theorem parseLine_end_marker (names cats : List String) (d : String) (acc : ParseAcc)
    (line : String) (hb : acc.inBlock = true) (hdone : acc.done = false)
    (hl : pyStrip line = assignReportEndTitle d) :
    (parseLine names cats d acc line).done = true := by
  unfold parseLine
  have h1 : assignReportEndTitle d ≠ assignReportTitle d :=
    fun hcontra => assignTitles_ne d hcontra.symm
  simp [hdone, h1, hb, hl]

/-- Claim C10: a `Calls assigned` header naming an unknown stakeholder
resets the context so following count lines are ignored until the next
recognised header; counts are only ever attributed to configured roster
members; and parsing stops at the first end-of-report marker of the
requested date, so later sheet text never affects the result. -/
theorem C10_report_parsing (names cats : List String) (d : String) :
    (∀ (acc : ParseAcc) (line : String), acc.done = false → acc.inBlock = true →
      pyStrip line ≠ assignReportTitle d → pyStrip line ≠ assignReportEndTitle d →
      pyStartsWith (pyStrip line) "Calls assigned " = true →
      names.contains (pyStrip (pyReplace (pyStrip line) "Calls assigned " "")) = false →
      parseLine names cats d acc line = { acc with current := none }) ∧
    (∀ (acc : ParseAcc) (lines : List String), acc.current = none →
      (∀ l ∈ lines, ¬(pyStartsWith (pyStrip l) "Calls assigned " = true ∧
        names.contains (pyStrip (pyReplace (pyStrip l) "Calls assigned " "")) = true)) →
      (lines.foldl (parseLine names cats d) acc).data = acc.data ∧
      (lines.foldl (parseLine names cats d) acc).totals = acc.totals) ∧
    (∀ (values : List String) (m : String), names.contains m = false →
      (read_todays_assignment_report names cats d values).totals m = 0 ∧
      ∀ c, (read_todays_assignment_report names cats d values).data m c = 0) ∧
    (∀ (acc : ParseAcc) (line : String), acc.inBlock = true → acc.done = false →
      pyStrip line = assignReportEndTitle d →
      (parseLine names cats d acc line).done = true) ∧
    (∀ (pre suffix : List String),
      (pre.foldl (parseLine names cats d) initParseAcc).done = true →
      (pre ++ suffix).foldl (parseLine names cats d) initParseAcc =
        pre.foldl (parseLine names cats d) initParseAcc) := by
  refine ⟨?_, ?_, ?_, ?_, ?_⟩
  · intro acc line hdone hb h1 h2 h3 h4
    unfold parseLine
    have h4' : pyStrip (pyReplace (pyStrip line) "Calls assigned " "") ∉ names := by
      simpa using h4
    simp [hdone, h1, hb, h2, h3, h4']
  · intro acc lines hc hall
    exact foldl_parseLine_current_none names cats d lines acc hc hall
  · intro values m hm
    exact read_report_outside names cats d m hm values
  · intro acc line hb hdone hl
    exact parseLine_end_marker names cats d acc line hb hdone hl
  · intro pre suffix h
    rw [List.foldl_append]
    exact foldl_parseLine_done names cats d _ h suffix

/-- Witness for C10 at a concrete roster, date and report text. -/
theorem C10_report_parsing_witness :
    (parseLine ["Amit"] ["Fresh"] "09-May-2025"
        ⟨true, some "Amit", fun _ _ => 0, fun _ => 0, false⟩ "Calls assigned Zed" =
      { (⟨true, some "Amit", fun _ _ => 0, fun _ => 0, false⟩ : ParseAcc) with
          current := none }) ∧
    ((read_todays_assignment_report ["Amit"] ["Fresh"] "09-May-2025"
        ["--- Stakeholder Report for Assignments on 09-May-2025 ---",
         "Calls assigned Zed", "- Fresh - 9"]).totals "Zed" = 0) ∧
    ((["--- Stakeholder Report for Assignments on 09-May-2025 ---",
       "--- End of Report for 09-May-2025 ---"] ++ ["Calls assigned Amit"]).foldl
        (parseLine ["Amit"] ["Fresh"] "09-May-2025") initParseAcc =
      ["--- Stakeholder Report for Assignments on 09-May-2025 ---",
       "--- End of Report for 09-May-2025 ---"].foldl
        (parseLine ["Amit"] ["Fresh"] "09-May-2025") initParseAcc) :=
  ⟨(C10_report_parsing ["Amit"] ["Fresh"] "09-May-2025").1
      ⟨true, some "Amit", fun _ _ => 0, fun _ => 0, false⟩ "Calls assigned Zed"
      (by decide) (by decide) (by decide) (by decide) (by decide) (by decide),
   ((C10_report_parsing ["Amit"] ["Fresh"] "09-May-2025").2.2.1
      ["--- Stakeholder Report for Assignments on 09-May-2025 ---",
       "Calls assigned Zed", "- Fresh - 9"] "Zed" (by decide)).1,
   (C10_report_parsing ["Amit"] ["Fresh"] "09-May-2025").2.2.2.2
      ["--- Stakeholder Report for Assignments on 09-May-2025 ---",
       "--- End of Report for 09-May-2025 ---"] ["Calls assigned Amit"] (by decide)⟩

/-- The pattern shared by every assignment-report block title
(distributionV2.py line 231). -/
def anyReportStartPat : String := "--- Stakeholder Report for Assignments on "

/-- The report sheet, modelled by its column A (index 0 is sheet row 1; a
missing trailing cell and an empty cell are both `""`).  The assignment
report writer reads only column A (`A:A`, lines 241 and 704), clears `A:Z`
and writes rows whose cells all sit inside columns A-Z, and its own rows are
single-column, so column A determines everything the claims mention. -/
def dropTrailingEmpty (l : List String) : List String :=
  (l.reverse.dropWhile (fun c => c == "")).reverse

/-- First index satisfying a predicate (the `for i in range(...)` searches of
`find_existing_report_range`). -/
def findIdxA (p : String → Bool) : List String → Option Nat
  | [] => none
  | c :: rest => if p c then some 0 else (findIdxA p rest).map (fun i => i + 1)

/-- `find_existing_report_range` (distributionV2.py lines 228-280): the
`A:A` read returns the cells up to the last non-empty row; the title row is
the first whose stripped value equals the day's title; the clear range ends
one row before the next block title, or at the last row. -/
def find_existing_report_range (sheet : List String) (d : String) : Option (Nat × Nat) :=
  let vals := dropTrailingEmpty sheet
  match findIdxA (fun c => pyStrip c == assignReportTitle d) vals with
  | none => none
  | some i0 =>
    let endRow :=
      match findIdxA (fun c => pyStartsWith (pyStrip c) anyReportStartPat) (vals.drop (i0 + 1)) with
      | some k => i0 + 1 + k
      | none => vals.length
    some (i0 + 1, max (i0 + 1) endRow)

/-- Extend a sheet with empty cells up to `n` rows. -/
def padTo (sheet : List String) (n : Nat) : List String :=
  sheet ++ List.replicate (n - sheet.length) ""

/-- A `values().update` at `A{start}` with single-column rows `body`
(distributionV2.py lines 692-694 and 727-731): overwrite rows
`start .. start+len-1`, extending the sheet as needed. -/
def writeBody (sheet : List String) (start : Nat) (body : List String) : List String :=
  let s := padTo sheet (start - 1 + body.length)
  s.take (start - 1) ++ body ++ s.drop (start - 1 + body.length)

/-- A `values().clear` of rows `a..b` (distributionV2.py lines 687-691):
existing cells in that row range become empty; the sheet is not extended. -/
def clearRows (sheet : List String) (a b : Nat) : List String :=
  sheet.take (a - 1) ++ ((sheet.drop (a - 1)).take (b - (a - 1))).map (fun _ => "") ++
    sheet.drop b

/-- The report-upsert of `distribute_and_report` (lines 683-739): find the
day's block; if found, clear its range and rewrite the body at its start
row; otherwise append at (last non-empty row + 2), or at row 1 when the
sheet is empty (a missing sheet is created empty, lines 710-716). -/
def upsertReport (sheet : List String) (d : String) (body : List String) : List String :=
  match find_existing_report_range sheet d with
  | some (s, e) => writeBody (clearRows sheet s e) s body
  | none =>
    let lastLen := (dropTrailingEmpty sheet).length
    let start := if lastLen = 0 then 1 else lastLen + 2
    writeBody sheet start body

/-- Rows whose stripped value equals a block title. -/
def countMatch (l : List String) (t : String) : Nat :=
  (l.filter (fun c => pyStrip c == t)).length

/-- A sheet is its trailing-empty-stripped prefix plus empty cells. -/
theorem dropTrailingEmpty_spec (l : List String) :
    ∃ k, l = dropTrailingEmpty l ++ List.replicate k "" := by
  refine ⟨(l.reverse.takeWhile (fun c => c == "")).length, ?_⟩
  conv_lhs => rw [← l.reverse_reverse]
  conv_lhs =>
    rw [← List.takeWhile_append_dropWhile (p := fun c => c == "") (l := l.reverse)]
  rw [List.reverse_append]
  unfold dropTrailingEmpty
  congr 1
  have hall : ∀ b ∈ (l.reverse.takeWhile (fun c => c == "")).reverse, b = "" := by
    intro b hb
    rw [List.mem_reverse] at hb
    have hpb := List.mem_takeWhile_imp hb
    simpa using hpb
  rw [List.eq_replicate_of_mem hall, List.length_reverse]

/-- The stripped prefix is an initial segment of the sheet. -/
theorem dropTrailingEmpty_take (l : List String) :
    dropTrailingEmpty l = l.take (dropTrailingEmpty l).length := by
  obtain ⟨k, hk⟩ := dropTrailingEmpty_spec l
  set D := dropTrailingEmpty l with hD
  rw [hk, List.take_left]

/-- The stripped prefix is no longer than the sheet. -/
theorem dropTrailingEmpty_le (l : List String) :
    (dropTrailingEmpty l).length ≤ l.length := by
  obtain ⟨k, hk⟩ := dropTrailingEmpty_spec l
  set D := dropTrailingEmpty l with hD
  rw [hk]
  simp

/-- Dropping trailing empties of `A ++ B` keeps all of `A` when `A` ends in
a non-empty cell. -/
theorem dropTrailingEmpty_append (A B : List String) (v : String)
    (hA : A.getLast? = some v) (hv : v ≠ "") :
    dropTrailingEmpty (A ++ B) = A ++ dropTrailingEmpty B := by
  unfold dropTrailingEmpty
  rw [List.reverse_append, List.dropWhile_append]
  have hhead : A.reverse.head? = some v := by rw [List.head?_reverse]; exact hA
  obtain ⟨t, ht⟩ : ∃ t, A.reverse = v :: t := by
    cases hrev : A.reverse with
    | nil => rw [hrev] at hhead; simp at hhead
    | cons a t =>
      rw [hrev] at hhead
      simp only [List.head?_cons, Option.some.injEq] at hhead
      exact ⟨t, by rw [hhead]⟩
  have hne : (A.reverse.dropWhile (fun c => c == "")).isEmpty = false := by
    rw [ht, List.dropWhile_cons]
    simp [hv]
  by_cases hB : (B.reverse.dropWhile (fun c => c == "")).isEmpty
  · rw [if_pos hB]
    have hBnil : B.reverse.dropWhile (fun c => c == "") = [] := by
      simpa [List.isEmpty_iff] using hB
    rw [hBnil, List.reverse_nil, List.append_nil]
    rw [ht, List.dropWhile_cons]
    simp [hv, ← ht]
  · rw [if_neg hB, List.reverse_append]
    simp

/-- `findIdxA` finds nothing exactly when no element satisfies the
predicate. -/
theorem findIdxA_none_iff (p : String → Bool) (l : List String) :
    findIdxA p l = none ↔ ∀ c ∈ l, p c = false := by
  induction l with
  | nil => simp [findIdxA]
  | cons c rest ih =>
    by_cases h : p c
    · simp [findIdxA, h]
    · simp only [findIdxA, if_neg h, Option.map_eq_none', ih, List.mem_cons]
      constructor
      · intro hall c' hc'
        rcases hc' with rfl | hc'
        · simpa using h
        · exact hall c' hc'
      · intro hall c' hc'
        exact hall c' (Or.inr hc')

/-- What a successful `findIdxA` means: a hit at the index, misses before. -/
theorem findIdxA_some_char (p : String → Bool) :
    ∀ (l : List String) (i : Nat), findIdxA p l = some i →
      i < l.length ∧ (∃ c, l[i]? = some c ∧ p c = true) ∧
        ∀ j, j < i → ∀ c, l[j]? = some c → p c = false := by
  intro l
  induction l with
  | nil => intro i h; simp [findIdxA] at h
  | cons c rest ih =>
    intro i h
    by_cases hp : p c
    · simp only [findIdxA, if_pos hp, Option.some.injEq] at h
      subst h
      exact ⟨by simp, ⟨c, by simp, hp⟩, fun j hj => absurd hj (Nat.not_lt_zero j)⟩
    · simp only [findIdxA, if_neg hp] at h
      rcases hfi : findIdxA p rest with _ | i'
      · rw [hfi] at h
        simp at h
      · rw [hfi] at h
        simp only [Option.map_some', Option.some.injEq] at h
        subst h
        obtain ⟨h1, ⟨c0, hc0, hpc⟩, hbef⟩ := ih i' hfi
        refine ⟨by simpa using h1, ⟨c0, by simpa using hc0, hpc⟩, ?_⟩
        intro j hj c1 hc1
        cases j with
        | zero =>
          simp only [List.getElem?_cons_zero, Option.some.injEq] at hc1
          rw [← hc1]
          simpa using hp
        | succ j' =>
          exact hbef j' (by omega) c1 (by simpa using hc1)

/-- `findIdxA` over a list whose first hit is right after a miss-only
prefix. -/
theorem findIdxA_append_first (p : String → Bool) (xs : List String) (y : String)
    (rest : List String) (hxs : ∀ c ∈ xs, p c = false) (hy : p y = true) :
    findIdxA p (xs ++ y :: rest) = some xs.length := by
  induction xs with
  | nil => simp [findIdxA, hy]
  | cons c xs' ih =>
    have hc : p c = false := hxs c (by simp)
    have ih' := ih (fun c' hc' => hxs c' (by simp [hc']))
    simp [findIdxA, hc, ih']

/-- `dropWhile` is the identity on a list whose head fails the predicate. -/
theorem dropWhile_head_false {α : Type} (p : α → Bool) (l : List α) (a : α)
    (h : l.head? = some a) (hp : p a = false) : l.dropWhile p = l := by
  cases l with
  | nil => simp at h
  | cons b rest =>
    simp only [List.head?_cons, Option.some.injEq] at h
    subst h
    rw [List.dropWhile_cons, hp]
    simp

/-- Stripping is the identity when both ends are non-whitespace. -/
theorem pyStrip_of_ends (s : String) (c0 cl : Char) (h0 : s.data.head? = some c0)
    (hw0 : c0.isWhitespace = false) (hl : s.data.getLast? = some cl)
    (hwl : cl.isWhitespace = false) : pyStrip s = s := by
  unfold pyStrip
  rw [dropWhile_head_false Char.isWhitespace s.data c0 h0 hw0]
  rw [dropWhile_head_false Char.isWhitespace s.data.reverse cl
    (by rw [List.head?_reverse]; exact hl) hwl]
  simp

/-- The characters of a day's block title. -/
theorem assignReportTitle_data (d : String) :
    (assignReportTitle d).data =
      ("--- Stakeholder Report for Assignments on " : String).data ++ d.data ++
        (" ---" : String).data := by
  unfold assignReportTitle
  rw [String.data_append, String.data_append]

/-- A block title strips to itself: it begins and ends with a dash. -/
theorem pyStrip_assignReportTitle (d : String) :
    pyStrip (assignReportTitle d) = assignReportTitle d := by
  refine pyStrip_of_ends (assignReportTitle d) '-' '-' ?_ (by decide) ?_ (by decide)
  · rw [assignReportTitle_data, List.append_assoc, List.head?_append]
    have hh : ("--- Stakeholder Report for Assignments on " : String).data.head? = some '-' := by
      decide
    rw [hh]
    rfl
  · rw [assignReportTitle_data]
    rw [List.getLast?_append_of_ne_nil
      (("--- Stakeholder Report for Assignments on " : String).data ++ d.data)
      (by decide : (" ---" : String).data ≠ [])]
    decide

/-- A block title starts with the shared block-title pattern. -/
theorem assignReportTitle_startsPat (d : String) :
    pyStartsWith (assignReportTitle d) anyReportStartPat = true := by
  unfold pyStartsWith anyReportStartPat
  rw [assignReportTitle_data, List.append_assoc, List.isPrefixOf_iff_prefix]
  exact List.prefix_append _ _

/-- A block title is never the empty string. -/
theorem assignReportTitle_ne_empty (d : String) : assignReportTitle d ≠ "" := by
  intro h
  have hdata := congrArg String.data h
  rw [assignReportTitle_data] at hdata
  simp at hdata

/-- A cell whose stripped value does not start with the block-title pattern
is not a block title. -/
theorem not_title_of_not_pat (c : String) (d : String)
    (h : pyStartsWith (pyStrip c) anyReportStartPat = false) :
    pyStrip c ≠ assignReportTitle d := by
  intro he
  rw [he, assignReportTitle_startsPat] at h
  cases h

/-- Length of a padded sheet. -/
theorem padTo_length (sheet : List String) (n : Nat) :
    (padTo sheet n).length = max sheet.length n := by
  unfold padTo
  simp
  omega

/-- Padding then dropping past the pad target recovers the plain drop. -/
theorem padTo_drop (sheet : List String) (n : Nat) :
    (padTo sheet n).drop n = sheet.drop n := by
  unfold padTo
  rcases le_or_lt sheet.length n with h | h
  · have h1 : sheet.drop n = [] := List.drop_eq_nil_of_le h
    have h2 : (sheet ++ List.replicate (n - sheet.length) "").drop n = [] := by
      apply List.drop_eq_nil_of_le
      simp
      omega
    rw [h1, h2]
  · have h1 : n - sheet.length = 0 := by omega
    rw [h1]
    simp

/-- Padding then taking below the pad target recovers the plain take when it
fits. -/
theorem padTo_take (sheet : List String) (n m : Nat) (h : m ≤ sheet.length) :
    (padTo sheet n).take m = sheet.take m := by
  unfold padTo
  rw [List.take_append_of_le_length h]

/-- `writeBody` as an explicit three-part concatenation. -/
theorem writeBody_eq (sheet : List String) (st : Nat) (body : List String) :
    writeBody sheet st body =
      (padTo sheet (st - 1 + body.length)).take (st - 1) ++ body ++
        sheet.drop (st - 1 + body.length) := by
  simp only [writeBody]
  have hd : (padTo sheet (st - 1 + body.length)).drop (st - 1 + body.length) =
      sheet.drop (st - 1 + body.length) := padTo_drop sheet (st - 1 + body.length)
  rw [hd]

/-- The written prefix always has exactly `st - 1` rows. -/
theorem writeBody_prefix_length (sheet : List String) (st : Nat) (body : List String) :
    ((padTo sheet (st - 1 + body.length)).take (st - 1)).length = st - 1 := by
  rw [List.length_take, padTo_length]
  omega

/-- `writeBody` grows the sheet exactly to fit the body. -/
theorem writeBody_length (sheet : List String) (st : Nat) (body : List String) :
    (writeBody sheet st body).length = max sheet.length (st - 1 + body.length) := by
  rw [writeBody_eq]
  simp only [List.length_append, writeBody_prefix_length, List.length_drop]
  omega

/-- The body lands at rows `st .. st+len-1`. -/
theorem writeBody_block (sheet : List String) (st : Nat) (body : List String) :
    ((writeBody sheet st body).drop (st - 1)).take body.length = body := by
  rw [writeBody_eq, List.append_assoc]
  have hlen := writeBody_prefix_length sheet st body
  generalize hR : body ++ sheet.drop (st - 1 + body.length) = Rest at *
  generalize hA : (padTo sheet (st - 1 + body.length)).take (st - 1) = A at *
  rw [← hlen, List.drop_left, ← hR, List.take_left]

/-- Rows before the written range are unchanged (when they exist). -/
theorem writeBody_take (sheet : List String) (st : Nat) (body : List String)
    (h : st - 1 ≤ sheet.length) :
    (writeBody sheet st body).take (st - 1) = sheet.take (st - 1) := by
  rw [writeBody_eq, padTo_take sheet _ _ h, List.append_assoc]
  generalize hR : body ++ sheet.drop (st - 1 + body.length) = Rest
  generalize hA : sheet.take (st - 1) = A
  have hlen : A.length = st - 1 := by
    rw [← hA, List.length_take]
    omega
  rw [← hlen, List.take_left]

/-- `clearRows` keeps the sheet length. -/
theorem clearRows_length (sheet : List String) (a b : Nat) (hab : a - 1 ≤ b) :
    (clearRows sheet a b).length = sheet.length := by
  unfold clearRows
  simp only [List.length_append, List.length_take, List.length_map, List.length_drop]
  omega

/-- Rows before the cleared range are unchanged (when they exist). -/
theorem clearRows_take (sheet : List String) (a b : Nat) (h : a - 1 ≤ sheet.length) :
    (clearRows sheet a b).take (a - 1) = sheet.take (a - 1) := by
  unfold clearRows
  rw [List.append_assoc]
  generalize hR : ((sheet.drop (a - 1)).take (b - (a - 1))).map (fun _ => "") ++
    sheet.drop b = Rest
  generalize hA : sheet.take (a - 1) = A
  have hlen : A.length = a - 1 := by
    rw [← hA, List.length_take]
    omega
  rw [← hlen, List.take_left]

/-- Every cell of a cleared sheet is empty or one of the cells before or
after the cleared range. -/
theorem clearRows_mem (sheet : List String) (a b : Nat) (c : String)
    (hc : c ∈ clearRows sheet a b) :
    c ∈ sheet.take (a - 1) ∨ c = "" ∨ c ∈ sheet.drop b := by
  unfold clearRows at hc
  rw [List.mem_append, List.mem_append] at hc
  rcases hc with (hc | hc) | hc
  · exact Or.inl hc
  · right; left
    obtain ⟨x, _, hx⟩ := List.mem_map.mp hc
    exact hx.symm
  · exact Or.inr (Or.inr hc)

/-- Every cell of a padded sheet is a cell of the sheet or empty. -/
theorem padTo_mem (sheet : List String) (n : Nat) (c : String) (hc : c ∈ padTo sheet n) :
    c ∈ sheet ∨ c = "" := by
  unfold padTo at hc
  rw [List.mem_append] at hc
  rcases hc with hc | hc
  · exact Or.inl hc
  · exact Or.inr (List.eq_of_mem_replicate hc)

/-- Membership through a `getElem?` of a `take`. -/
theorem mem_take_getElemQ {α : Type} (l : List α) (n : Nat) (c : α) (hc : c ∈ l.take n) :
    ∃ j, j < n ∧ l[j]? = some c := by
  obtain ⟨j, hj, hje⟩ := List.mem_iff_getElem.mp hc
  have hjn : j < n := by
    rw [List.length_take] at hj
    omega
  have hjq : (l.take n)[j]? = some c := by
    rw [List.getElem?_eq_getElem hj, hje]
  rw [List.getElem?_take, if_pos hjn] at hjq
  exact ⟨j, hjn, hjq⟩

/-- `countMatch` distributes over concatenation. -/
theorem countMatch_append (A B : List String) (t : String) :
    countMatch (A ++ B) t = countMatch A t + countMatch B t := by
  simp [countMatch, List.filter_append]

/-- `countMatch` vanishes exactly when no cell matches. -/
theorem countMatch_eq_zero (l : List String) (t : String) :
    countMatch l t = 0 ↔ ∀ c ∈ l, (pyStrip c == t) = false := by
  unfold countMatch
  rw [List.length_eq_zero, List.filter_eq_nil_iff]
  constructor
  · intro h c hc
    have := h c hc
    simpa using this
  · intro h c hc
    simp [h c hc]

/-- The empty cell never matches a block title. -/
theorem blank_no_match (d : String) : (pyStrip "" == assignReportTitle d) = false := by
  have h1 : pyStrip "" = "" := rfl
  rw [h1]
  rw [beq_eq_false_iff_ne]
  exact fun h => assignReportTitle_ne_empty d h.symm

/-- A matching cell at any position makes the count positive. -/
theorem countMatch_pos_of_getElem (l : List String) (t : String) (i : Nat) (c : String)
    (hi : l[i]? = some c) (hc : (pyStrip c == t) = true) : 1 ≤ countMatch l t := by
  have hmem : c ∈ l := mem_of_getElemQ hi
  have hf : c ∈ l.filter (fun c => pyStrip c == t) := List.mem_filter.mpr ⟨hmem, hc⟩
  have := List.length_pos.mpr (List.ne_nil_of_mem hf)
  simpa [countMatch] using this

/-- With at most one match overall and a match before row `m`, no cell from
row `m` on matches. -/
theorem countMatch_drop_zero (S : List String) (t : String) (m : Nat)
    (hle : countMatch S t ≤ 1) (i : Nat) (c : String) (hi : S[i]? = some c)
    (him : i < m) (hc : (pyStrip c == t) = true) :
    countMatch (S.drop m) t = 0 := by
  have h2 : countMatch S t = countMatch (S.take m) t + countMatch (S.drop m) t := by
    conv_lhs => rw [← List.take_append_drop m S]
    exact countMatch_append _ _ _
  have h1 : 1 ≤ countMatch (S.take m) t := by
    refine countMatch_pos_of_getElem (S.take m) t i c ?_ hc
    rw [List.getElem?_take]
    simp [him, hi]
  omega

/-- Decoding a successful `find_existing_report_range`. -/
theorem find_some_decode (S : List String) (d : String) (s e : Nat)
    (h : find_existing_report_range S d = some (s, e)) :
    ∃ i0, findIdxA (fun c => pyStrip c == assignReportTitle d) (dropTrailingEmpty S) =
        some i0 ∧ s = i0 + 1 ∧ s ≤ e := by
  simp only [find_existing_report_range] at h
  rcases hfi : findIdxA (fun c => pyStrip c == assignReportTitle d) (dropTrailingEmpty S) with
    _ | i0
  · rw [hfi] at h
    simp at h
  · rw [hfi] at h
    simp only [Option.some.injEq, Prod.mk.injEq] at h
    exact ⟨i0, rfl, h.1.symm, by omega⟩

/-- A failed `find_existing_report_range` means no cell of the sheet is the
day's title. -/
theorem find_none_nomatch (S : List String) (d : String)
    (h : find_existing_report_range S d = none) :
    ∀ c ∈ S, (pyStrip c == assignReportTitle d) = false := by
  have hdt : ∀ c ∈ dropTrailingEmpty S, (pyStrip c == assignReportTitle d) = false := by
    simp only [find_existing_report_range] at h
    rcases hfi : findIdxA (fun c => pyStrip c == assignReportTitle d) (dropTrailingEmpty S)
      with _ | i0
    · exact (findIdxA_none_iff _ _).mp hfi
    · rw [hfi] at h
      simp at h
  intro c hc
  obtain ⟨k, hk⟩ := dropTrailingEmpty_spec S
  rw [hk, List.mem_append] at hc
  rcases hc with hc | hc
  · exact hdt c hc
  · rw [List.eq_of_mem_replicate hc]
    exact blank_no_match d
/-- Cells before a found title never match it. -/
theorem find_prefix_nomatch (S : List String) (d : String) (i0 : Nat)
    (hfi : findIdxA (fun c => pyStrip c == assignReportTitle d) (dropTrailingEmpty S) =
      some i0) :
    ∀ c ∈ S.take i0, (pyStrip c == assignReportTitle d) = false := by
  obtain ⟨hlt, _, hbef⟩ := findIdxA_some_char _ (dropTrailingEmpty S) i0 hfi
  have heq : S.take i0 = (dropTrailingEmpty S).take i0 := by
    conv_rhs => rw [dropTrailingEmpty_take S]
    rw [List.take_take, Nat.min_eq_left (Nat.le_of_lt hlt)]
  intro c hc
  rw [heq] at hc
  obtain ⟨j, hji, hj⟩ := mem_take_getElemQ (dropTrailingEmpty S) i0 c hc
  exact hbef j hji c hj

/-- The title row found by the scan, as a cell of the raw sheet. -/
theorem find_title_cell (S : List String) (d : String) (i0 : Nat)
    (hfi : findIdxA (fun c => pyStrip c == assignReportTitle d) (dropTrailingEmpty S) =
      some i0) :
    ∃ c, S[i0]? = some c ∧ (pyStrip c == assignReportTitle d) = true := by
  obtain ⟨hlt, ⟨c, hc, hpc⟩, _⟩ := findIdxA_some_char _ (dropTrailingEmpty S) i0 hfi
  refine ⟨c, ?_, hpc⟩
  rw [dropTrailingEmpty_take S] at hc
  rw [List.getElem?_take] at hc
  by_cases hcase : i0 < (dropTrailingEmpty S).length
  · rw [if_pos hcase] at hc
    exact hc
  · rw [if_neg hcase] at hc
    cases hc

/-- Finding a block in any sheet of the shape
`no-match prefix ++ body ++ anything`: the title is found right after the
prefix and the range starts there. -/
theorem find_shape (P body Q : List String) (d : String)
    (hP : ∀ c ∈ P, (pyStrip c == assignReportTitle d) = false)
    (hb1 : body.head? = some (assignReportTitle d))
    (hb3 : ∃ v, body.getLast? = some v ∧ v ≠ "") :
    ∃ e, find_existing_report_range (P ++ body ++ Q) d = some (P.length + 1, e) ∧
      P.length + 1 ≤ e := by
  obtain ⟨v, hv, hvne⟩ := hb3
  obtain ⟨tail, hbody⟩ : ∃ tail, body = assignReportTitle d :: tail := by
    cases body with
    | nil => simp at hb1
    | cons b t =>
      simp only [List.head?_cons, Option.some.injEq] at hb1
      exact ⟨t, by rw [hb1]⟩
  have hbne : body ≠ [] := by rw [hbody]; simp
  have hlast : (P ++ body).getLast? = some v := by
    rw [List.getLast?_append_of_ne_nil P hbne]
    exact hv
  have hdt : dropTrailingEmpty (P ++ body ++ Q) = (P ++ body) ++ dropTrailingEmpty Q :=
    dropTrailingEmpty_append (P ++ body) Q v hlast hvne
  have harr : (P ++ body) ++ dropTrailingEmpty Q =
      P ++ (assignReportTitle d :: (tail ++ dropTrailingEmpty Q)) := by
    rw [hbody]
    simp
  have hfi : findIdxA (fun c => pyStrip c == assignReportTitle d)
      (dropTrailingEmpty (P ++ body ++ Q)) = some P.length := by
    rw [hdt, harr]
    refine findIdxA_append_first _ P _ _ hP ?_
    simp [pyStrip_assignReportTitle]
  simp only [find_existing_report_range]
  rw [hfi]
  exact ⟨_, rfl, le_max_left _ _⟩

/-- Every upsert produces a sheet of the shape `prefix ++ body ++ rest`
where no prefix cell is the day's title; when the sheet held at most one
copy of the title, no rest cell is the title either. -/
theorem upsertReport_shape (S : List String) (d : String) (body : List String) :
    ∃ P Q, upsertReport S d body = P ++ body ++ Q ∧
      (∀ c ∈ P, (pyStrip c == assignReportTitle d) = false) ∧
      (countMatch S (assignReportTitle d) ≤ 1 →
        ∀ c ∈ Q, (pyStrip c == assignReportTitle d) = false) := by
  unfold upsertReport
  rcases hfind : find_existing_report_range S d with _ | ⟨s, e⟩
  · refine ⟨(padTo S ((if (dropTrailingEmpty S).length = 0 then 1
        else (dropTrailingEmpty S).length + 2) - 1 + body.length)).take
          ((if (dropTrailingEmpty S).length = 0 then 1
            else (dropTrailingEmpty S).length + 2) - 1),
      S.drop ((if (dropTrailingEmpty S).length = 0 then 1
        else (dropTrailingEmpty S).length + 2) - 1 + body.length), ?_, ?_, ?_⟩
    · show writeBody S (if (dropTrailingEmpty S).length = 0 then 1
        else (dropTrailingEmpty S).length + 2) body = _
      exact writeBody_eq S _ body
    · intro c hc
      rcases padTo_mem S _ c (List.mem_of_mem_take hc) with hm | rfl
      · exact find_none_nomatch S d hfind c hm
      · exact blank_no_match d
    · intro _ c hc
      exact find_none_nomatch S d hfind c (List.mem_of_mem_drop hc)
  · obtain ⟨i0, hfi, hs, hse⟩ := find_some_decode S d s e hfind
    have hi0lt : i0 < (dropTrailingEmpty S).length := (findIdxA_some_char _ _ i0 hfi).1
    have hi0S : i0 < S.length := lt_of_lt_of_le hi0lt (dropTrailingEmpty_le S)
    have hXlen : (clearRows S s e).length = S.length := clearRows_length S s e (by omega)
    have hprefix : (padTo (clearRows S s e) (s - 1 + body.length)).take (s - 1) =
        S.take (s - 1) := by
      rw [padTo_take _ _ _ (by omega : s - 1 ≤ (clearRows S s e).length)]
      exact clearRows_take S s e (by omega)
    refine ⟨S.take (s - 1), (clearRows S s e).drop (s - 1 + body.length), ?_, ?_, ?_⟩
    · show writeBody (clearRows S s e) s body = _
      rw [writeBody_eq, hprefix]
    · intro c hc
      have hi : s - 1 = i0 := by omega
      rw [hi] at hc
      exact find_prefix_nomatch S d i0 hfi c hc
    · intro hcount c hc
      rcases clearRows_mem S s e c (List.mem_of_mem_drop hc) with hm | rfl | hm
      · have hi : s - 1 = i0 := by omega
        rw [hi] at hm
        exact find_prefix_nomatch S d i0 hfi c hm
      · exact blank_no_match d
      · obtain ⟨c0, hc0, hpc0⟩ := find_title_cell S d i0 hfi
        have hz : countMatch (S.drop e) (assignReportTitle d) = 0 :=
          countMatch_drop_zero S _ e hcount i0 c0 hc0 (by omega) hpc0
        exact (countMatch_eq_zero _ _).mp hz c hm

/-- Extracting the middle part of a three-part concatenation. -/
theorem block_at (P body Q : List String) :
    ((P ++ body ++ Q).drop P.length).take body.length = body := by
  rw [List.append_assoc, List.drop_left, List.take_left]

/-- A well-formed body contains its title exactly once. -/
theorem countMatch_body (d : String) (body : List String)
    (hb1 : body.head? = some (assignReportTitle d))
    (hb2 : ∀ c ∈ body.tail, pyStartsWith (pyStrip c) anyReportStartPat = false) :
    countMatch body (assignReportTitle d) = 1 := by
  obtain ⟨tail, rfl⟩ : ∃ tail, body = assignReportTitle d :: tail := by
    cases body with
    | nil => simp at hb1
    | cons b t =>
      simp only [List.head?_cons, Option.some.injEq] at hb1
      exact ⟨t, by rw [hb1]⟩
  have htail : ∀ c ∈ tail, (pyStrip c == assignReportTitle d) = false := by
    intro c hc
    have hnt := not_title_of_not_pat c d (hb2 c (by simpa using hc))
    simpa using hnt
  unfold countMatch
  rw [List.filter_cons]
  have hhit : (pyStrip (assignReportTitle d) == assignReportTitle d) = true := by
    simp [pyStrip_assignReportTitle]
  rw [if_pos hhit, List.length_cons]
  have hz : (tail.filter (fun c => pyStrip c == assignReportTitle d)).length = 0 := by
    rw [List.length_eq_zero, List.filter_eq_nil_iff]
    intro c hc
    simp [htail c hc]
  omega

/-- A pad cell past the content of the sheet is empty. -/
theorem padTo_getElem_blank (S : List String) (n i : Nat)
    (h1 : (dropTrailingEmpty S).length ≤ i) (h2 : i < n) : (padTo S n)[i]? = some "" := by
  obtain ⟨k, hk⟩ := dropTrailingEmpty_spec S
  have hlen : S.length = (dropTrailingEmpty S).length + k := by
    conv_lhs => rw [hk]
    simp
  have hlen2 : (dropTrailingEmpty S ++ List.replicate k "").length = S.length := by
    rw [← hk]
  unfold padTo
  conv_lhs => rw [hk]
  rw [List.append_assoc, ← List.replicate_add]
  rw [List.getElem?_append_right (by omega)]
  rw [List.getElem?_replicate, hlen2]
  rw [if_pos (by omega)]

/-- Appending a new block preserves the first `L` rows, where `L` is the
last non-empty row. -/
theorem writeBody_append_take (S body : List String) :
    (writeBody S (if (dropTrailingEmpty S).length = 0 then 1
      else (dropTrailingEmpty S).length + 2) body).take (dropTrailingEmpty S).length =
      S.take (dropTrailingEmpty S).length := by
  by_cases hL : (dropTrailingEmpty S).length = 0
  · rw [hL]
    simp
  · rw [if_neg hL, writeBody_eq, List.append_assoc]
    have hA : (dropTrailingEmpty S).length ≤
        ((padTo S ((dropTrailingEmpty S).length + 2 - 1 + body.length)).take
          ((dropTrailingEmpty S).length + 2 - 1)).length := by
      rw [writeBody_prefix_length]
      omega
    rw [List.take_append_of_le_length hA]
    rw [List.take_take, Nat.min_eq_left (by omega)]
    exact padTo_take S _ _ (dropTrailingEmpty_le S)

/-- Upserting over a sheet already of block shape is an in-place update: the
prefix and the body stay, the sheet does not grow. -/
theorem upsert_on_shape (P body Q : List String) (d : String)
    (hP : ∀ c ∈ P, (pyStrip c == assignReportTitle d) = false)
    (hb1 : body.head? = some (assignReportTitle d))
    (hb3 : ∃ v, body.getLast? = some v ∧ v ≠ "") :
    ∃ Q2, upsertReport (P ++ body ++ Q) d body = P ++ body ++ Q2 ∧
      (upsertReport (P ++ body ++ Q) d body).length = (P ++ body ++ Q).length := by
  obtain ⟨e1, hfind, hse⟩ := find_shape P body Q d hP hb1 hb3
  have hRlen : P.length + body.length ≤ (P ++ body ++ Q).length := by
    simp [List.length_append]
  have hXlen : (clearRows (P ++ body ++ Q) (P.length + 1) e1).length =
      (P ++ body ++ Q).length := clearRows_length _ _ _ (by omega)
  have hst : P.length + 1 - 1 = P.length := by omega
  have hpre : (padTo (clearRows (P ++ body ++ Q) (P.length + 1) e1)
      (P.length + 1 - 1 + body.length)).take (P.length + 1 - 1) = P := by
    rw [hst]
    rw [padTo_take _ _ _ (by omega)]
    have hct := clearRows_take (P ++ body ++ Q) (P.length + 1) e1 (by omega)
    rw [hst] at hct
    rw [hct, List.append_assoc, List.take_left]
  unfold upsertReport
  rw [hfind]
  refine ⟨(clearRows (P ++ body ++ Q) (P.length + 1) e1).drop
    (P.length + 1 - 1 + body.length), ?_, ?_⟩
  · show writeBody (clearRows (P ++ body ++ Q) (P.length + 1) e1) (P.length + 1) body = _
    rw [writeBody_eq, hpre]
  · show (writeBody (clearRows (P ++ body ++ Q) (P.length + 1) e1)
      (P.length + 1) body).length = _
    rw [writeBody_length, hXlen, hst]
    omega

/-- Cells surviving `dropTrailingEmpty` are cells of the original list. -/
theorem mem_dropTrailingEmpty (S : List String) (c : String)
    (hc : c ∈ dropTrailingEmpty S) : c ∈ S := by
  obtain ⟨k, hk⟩ := dropTrailingEmpty_spec S
  rw [hk]
  exact List.mem_append_left _ hc

/-- C6: the report upsert is idempotent per title. Starting from a sheet with
at most one block for the day and a well-formed body (title first line, no
other line a block title, non-empty last line): (a) after the upsert exactly
one row carries the day's title; (b) a second upsert with the same title and
body finds the block at the same start row, leaves the body block
byte-identical at that row, and does not grow the sheet; (c) an upsert for a
date absent from the sheet never changes the rows up to the last non-empty
row, so all prior blocks stay at their positions. -/
theorem C6_upsert (S body body2 : List String) (d d2 : String)
    (hb1 : body.head? = some (assignReportTitle d))
    (hb2 : ∀ c ∈ body.tail, pyStartsWith (pyStrip c) anyReportStartPat = false)
    (hb3 : ∃ v, body.getLast? = some v ∧ v ≠ "")
    (hcount : countMatch S (assignReportTitle d) ≤ 1) :
    countMatch (upsertReport S d body) (assignReportTitle d) = 1 ∧
    (∃ s e1 e2,
      find_existing_report_range (upsertReport S d body) d = some (s, e1) ∧
      find_existing_report_range (upsertReport (upsertReport S d body) d body) d
        = some (s, e2) ∧
      ((upsertReport S d body).drop (s - 1)).take body.length = body ∧
      ((upsertReport (upsertReport S d body) d body).drop (s - 1)).take body.length
        = body ∧
      (upsertReport (upsertReport S d body) d body).length
        = (upsertReport S d body).length) ∧
    (countMatch S (assignReportTitle d2) = 0 →
      (upsertReport S d2 body2).take (dropTrailingEmpty S).length =
        S.take (dropTrailingEmpty S).length) := by
  obtain ⟨P, Q, hshape, hP, hQ⟩ := upsertReport_shape S d body
  have hQ2 := hQ hcount
  refine ⟨?_, ?_, ?_⟩
  · rw [hshape, countMatch_append, countMatch_append,
      (countMatch_eq_zero P _).mpr hP, (countMatch_eq_zero Q _).mpr hQ2,
      countMatch_body d body hb1 hb2]
  · obtain ⟨e1, hfind1, _⟩ := find_shape P body Q d hP hb1 hb3
    obtain ⟨Q2, hup2, hlen2⟩ := upsert_on_shape P body Q d hP hb1 hb3
    obtain ⟨e2, hfind2, _⟩ := find_shape P body Q2 d hP hb1 hb3
    refine ⟨P.length + 1, e1, e2, ?_, ?_, ?_, ?_, ?_⟩
    · rw [hshape]
      exact hfind1
    · rw [hshape, hup2]
      exact hfind2
    · rw [hshape]
      simpa using block_at P body Q
    · rw [hshape, hup2]
      simpa using block_at P body Q2
    · rw [hshape]
      exact hlen2
  · intro hz
    have hfa : findIdxA (fun c => pyStrip c == assignReportTitle d2)
        (dropTrailingEmpty S) = none := by
      rw [findIdxA_none_iff]
      intro c hc
      exact (countMatch_eq_zero S _).mp hz c (mem_dropTrailingEmpty S c hc)
    have hnone : find_existing_report_range S d2 = none := by
      simp only [find_existing_report_range, hfa]
    have hup : upsertReport S d2 body2 = writeBody S
        (if (dropTrailingEmpty S).length = 0 then 1
          else (dropTrailingEmpty S).length + 2) body2 := by
      unfold upsertReport
      rw [hnone]
    rw [hup]
    exact writeBody_append_take S body2

/-- Witness for C6 on a concrete run: empty sheet, two-line body. -/
theorem C6_upsert_witness :
    countMatch (upsertReport [] "d" [assignReportTitle "d", "x"])
      (assignReportTitle "d") = 1 ∧
    (∃ s e1 e2,
      find_existing_report_range (upsertReport [] "d" [assignReportTitle "d", "x"]) "d"
        = some (s, e1) ∧
      find_existing_report_range (upsertReport
          (upsertReport [] "d" [assignReportTitle "d", "x"]) "d"
          [assignReportTitle "d", "x"]) "d" = some (s, e2) ∧
      ((upsertReport [] "d" [assignReportTitle "d", "x"]).drop (s - 1)).take
          ([assignReportTitle "d", "x"] : List String).length =
        [assignReportTitle "d", "x"] ∧
      ((upsertReport (upsertReport [] "d" [assignReportTitle "d", "x"]) "d"
          [assignReportTitle "d", "x"]).drop (s - 1)).take
          ([assignReportTitle "d", "x"] : List String).length =
        [assignReportTitle "d", "x"] ∧
      (upsertReport (upsertReport [] "d" [assignReportTitle "d", "x"]) "d"
          [assignReportTitle "d", "x"]).length =
        (upsertReport [] "d" [assignReportTitle "d", "x"]).length) ∧
    (countMatch [] (assignReportTitle "e") = 0 →
      (upsertReport [] "e" ["y"]).take (dropTrailingEmpty ([] : List String)).length =
        ([] : List String).take (dropTrailingEmpty ([] : List String)).length) :=
  C6_upsert [] [assignReportTitle "d", "x"] ["y"] "d" "e" (by decide) (by decide)
    ⟨"x", by decide, by decide⟩ (by decide)

/-- C7 counterexample: with rows 1-3 non-empty and no block for the day, the
new block is not appended at row 4 (last non-empty row + 1) as the claim
says; the code starts it at last non-empty row + 2, so row 4 stays blank and
the title lands at row 5. -/
theorem C7_counterexample :
    upsertReport ["x", "y", "z"] "d" [assignReportTitle "d"] =
      ["x", "y", "z", "", assignReportTitle "d"] ∧
    upsertReport ["x", "y", "z"] "d" [assignReportTitle "d"] ≠
      ["x", "y", "z", assignReportTitle "d"] := by
  decide

/-- C7 (amended): when no block with the day's title exists, the block is
appended starting at row (last non-empty row + 2), leaving one blank spacing
row, or at row 1 when the sheet is empty or newly created; rows up to the
last non-empty row are unchanged and the spacing row is blank. -/
theorem C7_amended (S body : List String) (d : String)
    (hfind : find_existing_report_range S d = none) :
    ((upsertReport S d body).drop
        ((if (dropTrailingEmpty S).length = 0 then 1
          else (dropTrailingEmpty S).length + 2) - 1)).take body.length = body ∧
    (upsertReport S d body).take (dropTrailingEmpty S).length =
      S.take (dropTrailingEmpty S).length ∧
    ((dropTrailingEmpty S).length ≠ 0 →
      (upsertReport S d body)[(dropTrailingEmpty S).length]? = some "") := by
  have hup : upsertReport S d body = writeBody S
      (if (dropTrailingEmpty S).length = 0 then 1
        else (dropTrailingEmpty S).length + 2) body := by
    unfold upsertReport
    rw [hfind]
  refine ⟨?_, ?_, ?_⟩
  · rw [hup]
    exact writeBody_block S _ body
  · rw [hup]
    exact writeBody_append_take S body
  · intro hL
    rw [hup, if_neg hL, writeBody_eq]
    have hAlen : ((padTo S ((dropTrailingEmpty S).length + 2 - 1 + body.length)).take
        ((dropTrailingEmpty S).length + 2 - 1)).length =
        (dropTrailingEmpty S).length + 1 := by
      rw [writeBody_prefix_length]
      omega
    rw [List.append_assoc, List.getElem?_append]
    rw [if_pos (by rw [hAlen]; omega)]
    rw [List.getElem?_take, if_pos (by omega)]
    exact padTo_getElem_blank S _ _ (le_refl _) (by omega)

/-- Witness for the amended C7: appending to a one-row sheet. -/
theorem C7_amended_witness :
    ((upsertReport ["x"] "d" ["t"]).drop
        ((if (dropTrailingEmpty ["x"]).length = 0 then 1
          else (dropTrailingEmpty ["x"]).length + 2) - 1)).take
        (["t"] : List String).length = ["t"] ∧
    (upsertReport ["x"] "d" ["t"]).take (dropTrailingEmpty ["x"]).length =
      (["x"] : List String).take (dropTrailingEmpty ["x"]).length ∧
    ((dropTrailingEmpty ["x"]).length ≠ 0 →
      (upsertReport ["x"] "d" ["t"])[(dropTrailingEmpty ["x"]).length]? = some "") :=
  C7_amended ["x"] ["t"] "d" (by decide)
